import Mathlib

/-!
Verification of the workwise-backend document-ingestion pipeline (routes in
app/routes/application_process.py), the resume-parsing service
(services/deepseek/parser.py and parser_service.py), the analyze-jd
orchestrator, and the rate-limit middleware (app/middleware/rate_limit.py),
as a shallow embedding of the Python source.

External collaborators are modelled as oracles: the md5 digest, the text
extraction libraries, and the chat-completion provider are function
parameters of the embedding, following the spec, which treats provider
output as a fixed value once produced.  The supabase persistence client is
modelled as an in-memory database value threaded through the pipeline;
select responses carry a list of rows, possibly empty and never a Python
None, matching the client library.  Write failures are injected through an
index of the failing write, so that partial-failure behaviour can be
stated.
-/

namespace Workwise

/-- JSON-like values, modelling the loosely typed Python dict and list
payloads that flow through the pipeline (parsed resume data, provider
responses).  Numbers are modelled as integers; objects as association lists
in insertion order, matching Python dict iteration order. -/
inductive Json where
  | null
  | bool (b : Bool)
  | num (n : Int)
  | str (s : String)
  | arr (xs : List Json)
  | obj (kvs : List (String × Json))
deriving Repr

/-- Lookup of a key in a Python dict, modelled on the association list of an
object: the first binding wins, mirroring that Python dicts have unique
keys. -/
def Json.alookup : List (String × Json) → String → Option Json
  | [], _ => none
  | (k, v) :: rest, key => if k = key then some v else Json.alookup rest key

/-- Python truthiness of a JSON-like value: None, False, 0, the empty
string, the empty list and the empty dict are falsy, everything else is
truthy. -/
def Json.truthy : Json → Bool
  | .null => false
  | .bool b => b
  | .num n => n != 0
  | .str s => !s.isEmpty
  | .arr xs => !xs.isEmpty
  | .obj kvs => !kvs.isEmpty

/-- Python iteration over a value, as used by for loops and list
comprehensions: a list yields its elements, a string yields its characters
as one-character strings, a dict yields its keys; other values raise
TypeError. -/
def pyIter : Json → Except String (List Json)
  | .arr xs => .ok xs
  | .str s => .ok (s.toList.map (fun c => Json.str (String.mk [c])))
  | .obj kvs => .ok (kvs.map (fun kv => Json.str kv.1))
  | _ => .error "TypeError: not iterable"

/-- Python dict get with a default, raising AttributeError when the
receiver is not a dict (models parsed_data.get called on an arbitrary
decoded value). -/
def pyDictGet (j : Json) (k : String) (d : Json) : Except String Json :=
  match j with
  | .obj kvs => .ok ((Json.alookup kvs k).getD d)
  | _ => .error "AttributeError: get"

/-- Substring test on character lists, modelling the Python expression
key in s for strings. -/
def strContainsSub (s pat : List Char) : Bool :=
  (List.range (s.length + 1)).any (fun i => pat.isPrefixOf (s.drop i))

/-- The polymorphic Python membership test key in x: key lookup for dicts,
element equality for lists, substring test for strings; TypeError for
other values. -/
def pyContains (j : Json) (key : String) : Except Unit Bool :=
  match j with
  | .obj kvs => .ok (kvs.any (fun kv => kv.1 == key))
  | .arr xs => .ok (xs.any (fun x => match x with | .str s => s == key | _ => false))
  | .str s => .ok (strContainsSub s.toList key.toList)
  | _ => .error ()

/-! ## Provider response validation (services/deepseek/parser_service.py,
_process_parsing_response, lines 189 to 214)

The raw chat-completion content and the markdown-fence cleaning plus
json.loads step are abstracted into the functions argument: the input below
is the decoded JSON value, or none when json.loads raises
JSONDecodeError. -/

/-- Outcome of _process_parsing_response: success returns the decoded value
unchanged; jsonError models the re-raised json.JSONDecodeError; malformed
models the ValueError about the missing content key (the
MalformedProviderResponse of the spec taxonomy); typeError models the
uncaught TypeError when the Python membership test is applied to a
non-container value such as a number. -/
inductive ProcResult where
  | ok (parsed : Json)
  | jsonError
  | malformed
  | typeError
deriving Repr

/-- Shallow embedding of _process_parsing_response, applied to the decoded
provider content. -/
def processParsingResponse (decoded : Option Json) : ProcResult :=
  match decoded with
  | none => ProcResult.jsonError
  | some parsed =>
    match pyContains parsed "content" with
    | .ok true => ProcResult.ok parsed
    | .ok false => ProcResult.malformed
    | .error _ => ProcResult.typeError

/-- Modelled from the spec words, for comparison with the code: a response
has the outer content wrapper when it is a JSON object carrying a top-level
content key.  This definition follows the claim text of C6, not the
source. -/
def hasContentWrapper : Json → Bool
  | .obj kvs => kvs.any (fun kv => kv.1 == "content")
  | _ => false

/-! ## Text extraction and the parser service (services/deepseek/parser.py
and parser_service.py) -/

/-- The supported extension set of ResumeParser (parser.py line 15). -/
def supportedExtensions : List String := [".pdf", ".docx", ".txt", ".rtf"]

/-- Lowercasing of one character, modelling str.lower on the ASCII range
relevant to file extensions. -/
def lowerChar (c : Char) : Char :=
  if 65 ≤ c.toNat && c.toNat ≤ 90 then Char.ofNat (c.toNat + 32) else c

/-- Lowercasing of a string, modelling str.lower. -/
def lowerString (s : String) : String := String.mk (s.toList.map lowerChar)

/-- Whitespace test for the strip model. -/
def isSpaceChar (c : Char) : Bool := c == ' ' || c == '\t' || c == '\n' || c == '\r'

/-- Python str.strip: remove leading and trailing whitespace. -/
def stripString (s : String) : String :=
  String.mk (((s.toList.dropWhile isSpaceChar).reverse.dropWhile isSpaceChar).reverse)

/-- The pathlib suffix of a filename: the extension of the final path
component, empty when the final component has no dot, starts with its only
dot, or ends with its last dot. -/
def pathSuffix (filename : String) : String :=
  let name := filename.toList.foldl (fun acc c => if c = '/' then [] else acc ++ [c]) []
  match ((List.range name.length).filter (fun i => name.getD i ' ' == '.')).getLast? with
  | some i => if 0 < i && i < name.length - 1 then String.mk (name.drop i) else ""
  | none => ""

/-- Observable events of a service invocation: a chat-completion call made
by the resume parser, a chat-completion call made by the jd analyzer, and a
row written to the ai_requests_log table. -/
inductive Event where
  | parserProviderCall
  | jdProviderCall
  | logRequest (service : String) (status : String)
deriving Repr, DecidableEq

/-- Failures of the parser service, named after the spec error taxonomy.
The source raises ValueError for the unsupported-extension and empty-text
cases, a wrapped ValueError for extraction failures, re-raises
json.JSONDecodeError for undecodable provider content, raises ValueError
for a decoded value failing the content-membership test, and lets the
TypeError of the membership test on a non-container value propagate.
Message texts are elided. -/
inductive SvcErr where
  | unsupportedFormat
  | extractionFailed (msg : String)
  | emptyText
  | jsonDecodeError
  | malformedResponse
  | typeError
deriving Repr, DecidableEq

/-- External collaborators of the ingestion pipeline: the md5 digest of the
raw bytes, the format-specific text extraction libraries (which may fail on
undecodable bytes), and the parsing chat-completion provider composed with
markdown cleaning and json.loads (none models JSONDecodeError). -/
structure Env where
  md5 : List Nat → String
  extractText : List Nat → String → Except String String
  parserCompletion : String → Option Json

/-- Shallow embedding of ResumeParserService.parse_resume composed with
ResumeParser.parse_resume: validate the extension, extract text, reject
empty text, call the provider, validate the response shape, and log the
request.  The returned value on success is the parsed_data dict; the
metadata record of parser.py carries the original filename and is
reconstructed by the route, so it is not duplicated here. -/
def parserServiceParseResume (env : Env) (content : List Nat) (filename : String) :
    Except SvcErr Json × List Event :=
  let ext := lowerString (pathSuffix filename)
  if supportedExtensions.contains ext then
    match env.extractText content ext with
    | .error m => (.error (SvcErr.extractionFailed m), [Event.logRequest "resume_parsing" "failed"])
    | .ok text =>
      if stripString text = "" then
        (.error SvcErr.emptyText, [Event.logRequest "resume_parsing" "failed"])
      else
        match processParsingResponse (env.parserCompletion text) with
        | ProcResult.ok parsed =>
          (.ok parsed, [Event.parserProviderCall, Event.logRequest "resume_parsing" "success"])
        | ProcResult.jsonError =>
          (.error SvcErr.jsonDecodeError, [Event.parserProviderCall, Event.logRequest "resume_parsing" "failed"])
        | ProcResult.malformed =>
          (.error SvcErr.malformedResponse, [Event.parserProviderCall, Event.logRequest "resume_parsing" "failed"])
        | ProcResult.typeError =>
          (.error SvcErr.typeError, [Event.parserProviderCall, Event.logRequest "resume_parsing" "failed"])
  else
    (.error SvcErr.unsupportedFormat, [Event.logRequest "resume_parsing" "failed"])

/-- Short rendering of a service failure for the detail field of the
HTTP 500 raised by the route. -/
def svcErrMsg : SvcErr → String
  | SvcErr.unsupportedFormat => "Unsupported file type"
  | SvcErr.extractionFailed m => m
  | SvcErr.emptyText => "No text was extracted from the resume"
  | SvcErr.jsonDecodeError => "JSONDecodeError"
  | SvcErr.malformedResponse => "Invalid response format: missing content key"
  | SvcErr.typeError => "TypeError"

/-! ## Database model

The supabase tables touched by the ingestion pipeline and the analyze-jd
route.  Row ids are assigned from a single counter.  Bucket columns of the
resumes table are grouped in an UpdateData record, set by the single bucket
update of step 5; jd_analysis and analysis_status are updated by the
analyze-jd route. -/

/-- A row of the parsed_resumes table. -/
structure ParsedResumeRow where
  id : Nat
  user_id : String
  file_hash : String
  parsed_data : Json
  original_filename : String

/-- The section buckets written onto a resumes row by the single update of
step 5 (application_process.py lines 100 to 110). -/
structure UpdateData where
  contact_information : Json
  education : Json
  skills : Json
  certificates : Json
  miscellaneous : Json
  executive_summary : Json
  personal_projects : Json

/-- A row of the resumes table (an Application). -/
structure ResumeRow where
  id : Nat
  user_id : String
  job_description : String
  company_applied : String
  role_applied : String
  status : String
  parsing_status : String
  analysis_status : String
  buckets : Option UpdateData
  jd_analysis : Option Json

/-- A row of the professional_experiences table.  Field values are stored
as the JSON values produced by exp.get, matching the loosely typed
source. -/
structure ExperienceRow where
  id : Nat
  resume_id : Nat
  organization : Json
  role : Json
  duration : Json
  location : Json
  organization_description : Json

/-- A row of the experience_points table. -/
structure PointRow where
  id : Nat
  experience_id : Nat
  text : Json

/-- The in-memory model of the persistence backend. -/
structure DB where
  parsed_resumes : List ParsedResumeRow
  resumes : List ResumeRow
  professional_experiences : List ExperienceRow
  experience_points : List PointRow
  nextId : Nat

/-- The empty database. -/
def DB.empty : DB := ⟨[], [], [], [], 1⟩

/-! ## The parse-resume route (application_process.py lines 18 to 152) -/

/-- The multipart request of POST parse-resume: an optional uploaded file
(raw bytes and declared filename), an optional reference to an existing
parse, and the application metadata fields. -/
structure ParseReq where
  resume : Option (List Nat × String)
  parsed_resume_id : Option Nat
  companyApplied : String
  roleApplied : String
  jobDescription : String

/-- The JSON body returned by a successful parse-resume call (lines 139 to
144). -/
structure ParseResp where
  status : String
  resume_id : Nat
  message : String
  is_reused : Bool
deriving Repr, DecidableEq

/-- Outcome of one route invocation: the HTTP result (an error carries the
status code and detail of the raised HTTPException), the database after the
call, the observable events, and which parsed_resumes row supplied the
structured data (a specification-only observation). -/
structure ParseOutcome where
  result : Except (Nat × String) ParseResp
  db : DB
  events : List Event
  usedParsed : Option Nat

/-- Python x is not None applied to the data field of a supabase select
response: the client returns a list of rows, possibly empty and never
None, so the test is true whatever the query found.  Line 58 of the source
instead tests truthiness of the same list, which is false for an empty
list; the two tests disagree exactly on the empty select result. -/
def pyIsNotNone (data : List ParsedResumeRow) : Bool := true

/-- The expression of line 143: parsed_resume_id is not None or
existing_parse.data is not None. -/
def isReusedValue (parsed_resume_id : Option Nat) (existingData : List ParsedResumeRow) : Bool :=
  parsed_resume_id.isSome || pyIsNotNone existingData

/-- Section lookup value for sections with a content payload:
s.get(content, emptydict). -/
def sectionContent (kvs : List (String × Json)) : Json :=
  (Json.alookup kvs "content").getD (Json.obj [])

/-- Section lookup value for sections with an entries payload:
s.get(entries, emptylist). -/
def sectionEntries (kvs : List (String × Json)) : Json :=
  (Json.alookup kvs "entries").getD (Json.arr [])

/-- Section lookup value for the executive summary:
s.get(content, emptystring). -/
def sectionSummary (kvs : List (String × Json)) : Json :=
  (Json.alookup kvs "content").getD (Json.str "")

/-- The generator condition s.get(type) == t on a dict section: false when
the key is absent or not the string t. -/
def typeMatches (kvs : List (String × Json)) (t : String) : Bool :=
  match Json.alookup kvs "type" with
  | some (Json.str x) => x == t
  | _ => false

/-- The Python idiom next((value s for s in items if s.get(type) == t),
default): scan the items lazily, produce the value of the first match,
fall back to the default when no section has the type; AttributeError when
a non-dict item is reached before a match. -/
def pyNext (items : List Json) (t : String) (val : List (String × Json) → Json) (d : Json) :
    Except String Json :=
  match items with
  | [] => .ok d
  | Json.obj kvs :: rest => if typeMatches kvs t then .ok (val kvs) else pyNext rest t val d
  | _ :: _ => .error "AttributeError: get"

/-- Step 4 of the route: parsed_data.get(content, emptydict).get(sections,
emptylist), iterated by the step 5 generators. -/
def getSections (parsed_data : Json) : Except String (List Json) := do
  let c ← pyDictGet parsed_data "content" (Json.obj [])
  let s ← pyDictGet c "sections" (Json.arr [])
  pyIter s

/-- Step 5 of the route: the update_data dict, one by-type lookup per
bucket, each defaulting to its empty container (lines 100 to 108).  The
executive summary bucket is looked up under the type string with a space,
exactly as in the source. -/
def buildUpdateData (items : List Json) : Except String UpdateData := do
  let ci ← pyNext items "contact_information" sectionContent (Json.obj [])
  let ed ← pyNext items "education" sectionEntries (Json.arr [])
  let sk ← pyNext items "skills" sectionEntries (Json.arr [])
  let ce ← pyNext items "certificates" sectionEntries (Json.arr [])
  let mi ← pyNext items "miscellaneous" sectionEntries (Json.arr [])
  let ex ← pyNext items "executive summary" sectionSummary (Json.str "")
  let pp ← pyNext items "personal_projects" sectionEntries (Json.arr [])
  pure ⟨ci, ed, sk, ce, mi, ex, pp⟩

/-- The exp_data record of lines 118 to 125: each field from exp.get with
an empty-string default, the row referencing the Application by resume_id
and taking the next id of the backend. -/
def expRowFrom (rid : Nat) (kvs : List (String × Json)) (db : DB) : ExperienceRow :=
  { id := db.nextId, resume_id := rid,
    organization := (Json.alookup kvs "organization").getD (Json.str ""),
    role := (Json.alookup kvs "role").getD (Json.str ""),
    duration := (Json.alookup kvs "duration").getD (Json.str ""),
    location := (Json.alookup kvs "location").getD (Json.str ""),
    organization_description := (Json.alookup kvs "organization_description").getD (Json.str "") }

/-- Step 6 of the route (lines 116 to 132): for each experience entry,
insert one professional_experiences row, then, when the entry carries a
truthy points value, build the points rows and insert them in one bulk
write.  Writes are numbered sequentially by w; the write whose index equals
the injected failW raises, leaving the database as it was before that
write.  A non-dict entry raises AttributeError at exp.get; a truthy
non-iterable points value raises TypeError while building points_data,
before the bulk write. -/
def processExperiences (failW : Option Nat) (rid : Nat) :
    List Json → DB → Nat → Except (String × DB × Nat) (DB × Nat)
  | [], db, w => .ok (db, w)
  | exp :: rest, db, w =>
    match exp with
    | Json.obj kvs =>
      if failW = some w then .error ("insert professional_experiences failed", db, w + 1)
      else
        let row : ExperienceRow := expRowFrom rid kvs db
        let db1 : DB :=
          { db with professional_experiences := db.professional_experiences ++ [row],
                    nextId := db.nextId + 1 }
        match Json.alookup kvs "points" with
        | some pv =>
          if pv.truthy then
            match pyIter pv with
            | .error m => .error (m, db1, w + 1)
            | .ok pts =>
              if failW = some (w + 1) then .error ("insert experience_points failed", db1, w + 2)
              else
                let prows := pts.enum.map (fun ip => PointRow.mk (db1.nextId + ip.1) row.id ip.2)
                let db2 : DB :=
                  { db1 with experience_points := db1.experience_points ++ prows,
                             nextId := db1.nextId + pts.length }
                processExperiences failW rid rest db2 (w + 2)
          else processExperiences failW rid rest db1 (w + 1)
        | none => processExperiences failW rid rest db1 (w + 1)
    | _ => .error ("AttributeError: get", db, w)

/-- Steps 3 to 6 of the route, entered once parsed_data is in hand: insert
the Application header row (write w), decompose the sections, persist the
buckets as a single update (write w + 1), then fan out the professional
experiences (writes from w + 2).  Any raised error is converted by the
blanket exception handler of the route into an HTTP 500. -/
def buildApplicationRecords (failW : Option Nat) (user_id : String) (req : ParseReq) (db : DB)
    (parsed_data : Json) (reused : Bool) (usedP : Option Nat) (evs : List Event) (w : Nat) :
    ParseOutcome :=
  if failW = some w then ⟨.error (500, "insert resumes failed"), db, evs, usedP⟩
  else
    let header : ResumeRow :=
      { id := db.nextId, user_id := user_id, job_description := req.jobDescription,
        company_applied := req.companyApplied, role_applied := req.roleApplied,
        status := "Writing CV", parsing_status := "completed", analysis_status := "pending",
        buckets := none, jd_analysis := none }
    let db1 : DB := { db with resumes := db.resumes ++ [header], nextId := db.nextId + 1 }
    let resume_id := header.id
    match getSections parsed_data with
    | .error m => ⟨.error (500, m), db1, evs, usedP⟩
    | .ok items =>
      match buildUpdateData items with
      | .error m => ⟨.error (500, m), db1, evs, usedP⟩
      | .ok u =>
        if failW = some (w + 1) then ⟨.error (500, "update resumes failed"), db1, evs, usedP⟩
        else
          let bucketed := db1.resumes.map
            (fun r => if r.id = resume_id then { r with buckets := some u } else r)
          let db2 : DB := { db1 with resumes := bucketed }
          match pyNext items "professional_experience" sectionEntries (Json.arr []) with
          | .error m => ⟨.error (500, m), db2, evs, usedP⟩
          | .ok pe =>
            match pyIter pe with
            | .error m => ⟨.error (500, m), db2, evs, usedP⟩
            | .ok prof_exp =>
              match processExperiences failW resume_id prof_exp db2 (w + 2) with
              | .error (m, db3, _) => ⟨.error (500, m), db3, evs, usedP⟩
              | .ok (db3, _) =>
                ⟨.ok ⟨"success", resume_id, "Resume processed successfully", reused⟩, db3, evs, usedP⟩

/-- Shallow embedding of the parse-resume route.  When parsed_resume_id is
given, the referenced parsed_resumes row is fetched (a missing row raises
an HTTPException 404, swallowed by the blanket handler and re-raised as
500).  Otherwise the upload is hashed with md5 over the raw bytes, the
parse cache is consulted by file_hash, and on a miss the parser service is
invoked and its result stored (write 0).  All failures surface as HTTP 500
through the blanket exception handler of the route. -/
def parseResumeRoute (env : Env) (failW : Option Nat) (user_id : String) (req : ParseReq)
    (db : DB) : ParseOutcome :=
  match req.parsed_resume_id with
  | some pid =>
    match db.parsed_resumes.find? (fun r => r.id == pid) with
    | none => ⟨.error (500, "404: Parsed resume not found"), db, [], none⟩
    | some row =>
      buildApplicationRecords failW user_id req db row.parsed_data
        (isReusedValue (some pid) []) (some row.id) [] 0
  | none =>
    match req.resume with
    | none => ⟨.error (500, "400: Either resume file or parsed_resume_id must be provided"), db, [], none⟩
    | some (content, filename) =>
      let file_hash := env.md5 content
      match db.parsed_resumes.filter (fun r => r.file_hash == file_hash) with
      | row :: rest =>
        buildApplicationRecords failW user_id req db row.parsed_data
          (isReusedValue none (row :: rest)) (some row.id) [] 0
      | [] =>
        match parserServiceParseResume env content filename with
        | (.error e, evs2) => ⟨.error (500, svcErrMsg e), db, evs2, none⟩
        | (.ok parsed_data, evs2) =>
          if failW = some 0 then ⟨.error (500, "insert parsed_resumes failed"), db, evs2, none⟩
          else
            let prow : ParsedResumeRow := ⟨db.nextId, user_id, file_hash, parsed_data, filename⟩
            let db1 : DB := { db with parsed_resumes := db.parsed_resumes ++ [prow],
                                      nextId := db.nextId + 1 }
            buildApplicationRecords failW user_id req db1 parsed_data
              (isReusedValue none []) (some prow.id) evs2 1

/-! ## The analyze-jd route (application_process.py lines 154 to 204,
routes/resume.py lines 24 to 60, services/deepseek/jd_analysis_service.py) -/

/-- External collaborator of the jd analysis: the chat-completion provider
composed with markdown cleaning and json.loads, consuming the job
description and the persisted Application row (the prompt assembly from
row data is pure string formatting and is elided). -/
structure JDEnv where
  jdCompletion : String → ResumeRow → Option Json

/-- BaseService.update_resume_status for the analysis status: update the
resumes rows whose id matches (a missing row makes this a no-op update).
The metadata merge branch is not modelled; no claim concerns the metadata
column. -/
def updateAnalysisStatus (db : DB) (rid : Nat) (st : String) : DB :=
  let updated := db.resumes.map
    (fun r => if r.id = rid then { r with analysis_status := st } else r)
  { db with resumes := updated }

/-- ResumeService.get_resume: select the resumes row by id.  A missing row
raises HTTPException 404 inside the try block of the method, which its own
blanket except-Exception handler catches and re-raises as HTTPException
500, so the caller observes a 500.  The response assembly from the row and
its experience rows is elided; the row itself is returned. -/
def getResumeSvc (db : DB) (rid : Nat) : Except (Nat × String) ResumeRow :=
  match db.resumes.filter (fun r => r.id == rid) with
  | [] => .error (500, "404: Resume not found")
  | r :: _ => .ok r

/-- JDAnalysisService.analyze: one chat-completion call, then decode and
validate.  Undecodable content, a non-dict decode, a missing jd_analysis
key or a non-list jd_analysis value all end in an empty list being
returned (the source catches every failure of this region and returns an
empty list); only the valid case logs a success row. -/
def jdAnalysisAnalyze (env : JDEnv) (job_description : String) (row : ResumeRow) :
    Json × List Event :=
  match env.jdCompletion job_description row with
  | some (Json.obj kvs) =>
    match Json.alookup kvs "jd_analysis" with
    | some (Json.arr xs) =>
      (Json.arr xs, [Event.jdProviderCall, Event.logRequest "jd_analysis" "success"])
    | _ => (Json.arr [], [Event.jdProviderCall])
  | _ => (Json.arr [], [Event.jdProviderCall])

/-- Outcome of one analyze-jd invocation: the HTTP result (success carries
the resume id and the analysis), the database after the call, and the
observable events. -/
structure JDOutcome where
  result : Except (Nat × String) (Nat × Json)
  db : DB
  events : List Event

/-- Shallow embedding of the analyze-jd route.  The user_id of the caller
is decoded from the bearer token but never compared with the owner of the
Application: no ownership check appears between the fetch and the
analysis.  On any raised error the handler sets the analysis status to
failed (a no-op when the row is missing) and re-raises as HTTP 500. -/
def analyzeJD (env : JDEnv) (user_id : String) (resume_id : Nat) (db : DB) : JDOutcome :=
  match getResumeSvc db resume_id with
  | .error e => ⟨.error (500, e.2), updateAnalysisStatus db resume_id "failed", []⟩
  | .ok row =>
    let db1 := updateAnalysisStatus db resume_id "in_progress"
    let ae := jdAnalysisAnalyze env row.job_description row
    let completed := db1.resumes.map
      (fun r => if r.id = resume_id then
        { r with analysis_status := "completed", jd_analysis := some ae.1 } else r)
    let db2 : DB := { db1 with resumes := completed }
    ⟨.ok (resume_id, ae.1), db2, ae.2⟩

/-! ## The rate-limit middleware (app/middleware/rate_limit.py)

Timestamps are modelled as elements of a linearly ordered additive
commutative group, since dispatch only forms differences of times and
compares them with the window; witnesses instantiate the time type with
the integers.  The request_counts defaultdict is modelled as an
association list from client address to its timestamp list. -/

/-- The response of one dispatch: either the request was forwarded to the
inner application (call_next was invoked), or the 429 JSONResponse was
returned directly without forwarding. -/
inductive RLResponse where
  | forwarded
  | tooManyRequests
deriving Repr, DecidableEq

variable {T : Type} [LinearOrderedAddCommGroup T]

/-- Lookup in the request_counts table; a missing client address yields the
empty list, as with defaultdict(list). -/
def getCounts : List (String × List T) → String → List T
  | [], _ => []
  | (k, v) :: rest, ip => if k = ip then v else getCounts rest ip

/-- Assignment in the request_counts table. -/
def setCounts : List (String × List T) → String → List T → List (String × List T)
  | [], ip, v => [(ip, v)]
  | (k, w) :: rest, ip, v =>
    if k = ip then (ip, v) :: rest else (k, w) :: setCounts rest ip v

/-- One dispatch of RateLimitMiddleware: drop the timestamps of this client
that are at least one window old, reject with 429 when the remaining count
has reached the limit (the rejected request is not recorded), otherwise
record the request and forward it. -/
def rlDispatch (limit : Nat) (window : T) (ip : String) (now : T)
    (st : List (String × List T)) : RLResponse × List (String × List T) :=
  let kept := (getCounts st ip).filter (fun t => decide (now - t < window))
  let st1 := setCounts st ip kept
  if limit ≤ kept.length then (RLResponse.tooManyRequests, st1)
  else (RLResponse.forwarded, setCounts st1 ip (kept ++ [now]))

/-- Process a sequence of requests (client address and arrival time)
through the middleware, producing the per-request decisions and the final
table. -/
def rlRun (limit : Nat) (window : T) :
    List (String × T) → List (String × List T) →
    List ((String × T) × RLResponse) × List (String × List T)
  | [], st => ([], st)
  | r :: rest, st =>
    let d := rlDispatch limit window r.1 r.2 st
    let out := rlRun limit window rest d.2
    (((r.1, r.2), d.1) :: out.1, out.2)

/-- The times at which requests of one client were admitted (forwarded) in
a decision trace. -/
def admittedTimes (tr : List ((String × T) × RLResponse)) (ip : String) : List T :=
  (tr.filter (fun e => e.1.1 == ip && e.2 == RLResponse.forwarded)).map (fun e => e.1.2)

/-! ## Specification-side helpers for the route theorems -/

/-- The database value held in either outcome of the experience loop. -/
def loopDB : Except (String × DB × Nat) (DB × Nat) → DB
  | .ok (db, _) => db
  | .error (_, db, _) => db

/-- Whether the points value of an entry, if truthy, is iterable (so that
building points_data raises no TypeError). -/
def iterOk : Json → Bool
  | .arr _ => true
  | .str _ => true
  | .obj _ => true
  | _ => false

/-- A well-formed experience entry for the purposes of the loop: a truthy
points value must be iterable. -/
def pointsOk (kvs : List (String × Json)) : Bool :=
  match Json.alookup kvs "points" with
  | some pv => !pv.truthy || iterOk pv
  | none => true

/-- The number of backend writes one experience entry performs: the row
insert, plus the bulk points insert when the entry has a truthy points
value. -/
def expWrites (kvs : List (String × Json)) : Nat :=
  1 + (match Json.alookup kvs "points" with
       | some pv => if pv.truthy then 1 else 0
       | none => 0)

/-- The number of backend writes a list of experience entries performs. -/
def loopWrites (exps : List (List (String × Json))) : Nat := (exps.map expWrites).sum

/-- A parsed_data value wrapping a given section list in the expected
content and sections shape. -/
def wrapSections (secs : List (List (String × Json))) : Json :=
  Json.obj [("content", Json.obj [("sections", Json.arr (secs.map Json.obj))])]

/-- A professional_experience section holding the given entries. -/
def profSection (exps : List (List (String × Json))) : List (String × Json) :=
  [("type", Json.str "professional_experience"), ("entries", Json.arr (exps.map Json.obj))]

/-- The content hash of line 55: md5 over the raw upload bytes; the
declared filename takes no part in it. -/
def uploadHash (env : Env) (content : List Nat) (filename : String) : String :=
  env.md5 content

/-- The database state after the header insert (write w) and the bucket
update (write w + 1) of the record-building stage, spelled out for
reasoning about the experience loop that follows: the header row is
appended and then its bucket columns are set by the single update. -/
def dbAfterHeader (user_id : String) (req : ParseReq) (u : UpdateData) (db : DB) : DB :=
  let header : ResumeRow :=
    { id := db.nextId, user_id := user_id, job_description := req.jobDescription,
      company_applied := req.companyApplied, role_applied := req.roleApplied,
      status := "Writing CV", parsing_status := "completed", analysis_status := "pending",
      buckets := none, jd_analysis := none }
  let db1 : DB := { db with resumes := db.resumes ++ [header], nextId := db.nextId + 1 }
  let bucketed := db1.resumes.map
    (fun r => if r.id = header.id then { r with buckets := some u } else r)
  { db1 with resumes := bucketed }

/-! ## Concrete fixtures used by witnesses and counterexamples -/

/-- A concrete environment whose provider answers every parse with a
well-formed empty-sections document. -/
def envP : Env :=
  { md5 := fun _ => "h",
    extractText := fun _ _ => .ok "text",
    parserCompletion := fun _ => some (Json.obj [("content", Json.obj [("sections", Json.arr [])])]) }

/-- A concrete first-upload request: a fresh pdf with Acme metadata and no
existing-parse reference. -/
def req0 : ParseReq := ⟨some ([1, 2, 3], "resume.pdf"), none, "Acme", "Engineer", "Build things"⟩

/-- A second request uploading the same bytes under a different filename
and metadata. -/
def req1 : ParseReq := ⟨some ([1, 2, 3], "other.txt"), none, "Globex", "Manager", "Other things"⟩

/-- A concrete jd environment whose provider content never decodes. -/
def envJ : JDEnv := ⟨fun _ _ => none⟩

/-- An Application row owned by user-b with a pending analysis. -/
def rowB : ResumeRow :=
  ⟨1, "user-b", "jd", "Acme", "Eng", "Writing CV", "completed", "pending", none, none⟩

/-- A database holding only the Application of user-b. -/
def dbB : DB := ⟨[], [rowB], [], [], 2⟩

/-- A two-entry professional experience list: the first entry has no
points value, the second carries a truthy points list. -/
def exps9 : List (List (String × Json)) :=
  [[("organization", Json.str "Acme")], [("points", Json.arr [Json.str "p"])]]

end Workwise

/-! # Theorems -/

namespace Workwise

/-! ## C1: is_reused on a first upload -/

/-- C1.  The claim states that a first upload whose bytes have no cache
entry returns is_reused equal to false.  The code computes is_reused as
parsed_resume_id is not None or existing_parse.data is not None, and the
supabase select response data is an empty list, not None, on a cache miss;
the disjunct is therefore true and a first upload already reports
is_reused equal to true.  This theorem evaluates the route at the failing
input: an upload of bytes with an empty parse cache and no existing-parse
reference returns is_reused equal to true, contradicting the claim and the
repository test test_resume_parser.test_parse_new_resume, which asserts
is_reused false for a new resume. -/
theorem parse_resume_first_upload_reports_reused :
    DB.empty.parsed_resumes = []
    ∧ req0.parsed_resume_id = none
    ∧ (parseResumeRoute envP none "user-1" req0 DB.empty).result
        = Except.ok ⟨"success", 2, "Resume processed successfully", true⟩ :=
  ⟨rfl, rfl, rfl⟩

/-! ## C2: analyze-jd has no ownership check -/

/-- C2 counterexample.  The claim states that an analyze-jd request by a
caller who is not the owner of the Application fails with 403 without
invoking the provider or modifying the Application.  Here the caller
user-a requests analysis of the Application owned by user-b: the call
succeeds (no 403), the jd provider is invoked, and the analysis status of
the row is overwritten with completed. -/
theorem analyze_jd_cross_owner_counterexample :
    rowB.user_id = "user-b"
    ∧ (analyzeJD envJ "user-a" 1 dbB).result = Except.ok (1, Json.arr [])
    ∧ (analyzeJD envJ "user-a" 1 dbB).events = [Event.jdProviderCall]
    ∧ ((analyzeJD envJ "user-a" 1 dbB).db.resumes.map (fun r => r.analysis_status))
        = ["completed"] :=
  ⟨rfl, rfl, rfl, rfl⟩

/-- Auxiliary: every branch of the jd analysis begins with the provider
call event. -/
theorem jdAnalysisAnalyze_events_head (env : JDEnv) (jd : String) (row : ResumeRow) :
    (jdAnalysisAnalyze env jd row).2.head? = some Event.jdProviderCall := by
  unfold jdAnalysisAnalyze
  cases h : env.jdCompletion jd row with
  | none => rfl
  | some a =>
    cases a with
    | obj kvs =>
      cases hk : Json.alookup kvs "jd_analysis" with
      | none => simp [hk]
      | some v => cases v <;> simp [hk]
    | null => rfl
    | bool b => rfl
    | num n => rfl
    | str s => rfl
    | arr xs => rfl

/-- C2 amended.  The analyze-jd route performs no ownership check: for
every caller and every existing Application, whoever its owner is, the
request proceeds, the jd provider is invoked, the analysis fields of the
Application are overwritten with completed, and the call returns success;
a 403 is never produced. -/
theorem analyze_jd_no_ownership_check (env : JDEnv) (uid : String) (rid : Nat) (db : DB)
    (r : ResumeRow) (rs : List ResumeRow)
    (h : db.resumes.filter (fun x => x.id == rid) = r :: rs) :
    (analyzeJD env uid rid db).result
      = Except.ok (rid, (jdAnalysisAnalyze env r.job_description r).1)
    ∧ (analyzeJD env uid rid db).events.head? = some Event.jdProviderCall
    ∧ ∀ r2 ∈ (analyzeJD env uid rid db).db.resumes,
        r2.id = rid → r2.analysis_status = "completed" := by
  unfold analyzeJD getResumeSvc
  rw [h]
  refine ⟨rfl, jdAnalysisAnalyze_events_head env r.job_description r, ?_⟩
  intro r2 hmem hid
  simp only [updateAnalysisStatus, List.map_map, List.mem_map, Function.comp] at hmem
  obtain ⟨y, hy, hfy⟩ := hmem
  subst hfy
  by_cases hyd : y.id = rid
  · simp [hyd]
  · simp [hyd] at hid

/-- C2 amended witness: applied to the concrete cross-owner database. -/
theorem analyze_jd_no_ownership_check_witness :
    dbB.resumes.filter (fun x => x.id == 1) = rowB :: []
    ∧ (analyzeJD envJ "user-a" 1 dbB).result
        = Except.ok (1, (jdAnalysisAnalyze envJ rowB.job_description rowB).1) :=
  ⟨rfl, (analyze_jd_no_ownership_check envJ "user-a" 1 dbB rowB [] rfl).1⟩

/-! ## C3: analyze-jd on a missing Application -/

/-- C3.  The claim (and the repository test
test_jd_analysis.test_error_handling) says a nonexistent Application id
yields 404.  In the code the HTTPException 404 raised inside
ResumeService.get_resume is caught by the blanket except-Exception handler
of that very method and re-raised as 500, and the analyze-jd handler
wraps it in a 500 again, so the caller observes 500.  This theorem
evaluates the route at the failing input: an id with no Application row in
an empty database. -/
theorem analyze_jd_missing_application_returns_500 :
    DB.empty.resumes = []
    ∧ (analyzeJD envJ "user-a" 999999 DB.empty).result
        = Except.error (500, "404: Resume not found") :=
  ⟨rfl, rfl⟩

/-! ## C5: unsupported extensions fail before any provider call -/

/-- C5.  An upload whose filename extension (lowercased pathlib suffix) is
outside the supported set pdf, docx, txt, rtf makes the parser service
fail with the UnsupportedFormat error of the spec taxonomy, and the event
trace contains no provider call: the failure is raised before any external
call. -/
theorem unsupported_extension_fails_before_provider (env : Env) (content : List Nat)
    (filename : String)
    (h : supportedExtensions.contains (lowerString (pathSuffix filename)) = false) :
    (parserServiceParseResume env content filename).1 = Except.error SvcErr.unsupportedFormat
    ∧ Event.parserProviderCall ∉ (parserServiceParseResume env content filename).2 := by
  have h2 : ¬ (lowerString (pathSuffix filename) ∈ supportedExtensions) := by
    simpa using h
  refine ⟨?_, ?_⟩ <;> simp [parserServiceParseResume, h2]

/-- C5 witness: a concrete exe upload. -/
theorem unsupported_extension_fails_before_provider_witness :
    supportedExtensions.contains (lowerString (pathSuffix "resume.exe")) = false
    ∧ (parserServiceParseResume envP [1, 2] "resume.exe").1
        = Except.error SvcErr.unsupportedFormat :=
  ⟨by decide, (unsupported_extension_fails_before_provider envP [1, 2] "resume.exe" (by decide)).1⟩

/-! ## C6: top-level validation of the provider response -/

/-- C6 counterexample.  The claim states that validation fails whenever
the decoded response lacks the outer content wrapper.  The code instead
applies the polymorphic Python membership test, so the decoded JSON array
containing the string content is accepted by validation although it has no
outer content wrapper. -/
theorem process_parsing_response_accepts_wrapperless_array :
    processParsingResponse (some (Json.arr [Json.str "content"]))
      = ProcResult.ok (Json.arr [Json.str "content"])
    ∧ hasContentWrapper (Json.arr [Json.str "content"]) = false :=
  ⟨rfl, rfl⟩

/-- C6 amended.  For undecodable content validation re-raises the decode
error; a decoded value with the outer content wrapper (a JSON object with
a top-level content key) is accepted unchanged, whatever nested fields are
absent; a decoded JSON object without the content key fails with the
MalformedProviderResponse error.  For a decoded non-object the code
applies the Python membership test, so such values can also be accepted
(see the counterexample) or raise a TypeError. -/
theorem process_parsing_response_top_level_validation :
    processParsingResponse none = ProcResult.jsonError
    ∧ (∀ j : Json, hasContentWrapper j = true →
        processParsingResponse (some j) = ProcResult.ok j)
    ∧ (∀ kvs : List (String × Json), hasContentWrapper (Json.obj kvs) = false →
        processParsingResponse (some (Json.obj kvs)) = ProcResult.malformed) := by
  refine ⟨rfl, ?_, ?_⟩
  · intro j hj
    cases j with
    | obj kvs =>
      have hb : (kvs.any fun kv => kv.1 == "content") = true := hj
      simp [processParsingResponse, pyContains, hb]
    | null => exact absurd hj (by simp [hasContentWrapper])
    | bool b => exact absurd hj (by simp [hasContentWrapper])
    | num n => exact absurd hj (by simp [hasContentWrapper])
    | str s => exact absurd hj (by simp [hasContentWrapper])
    | arr xs => exact absurd hj (by simp [hasContentWrapper])
  · intro kvs hk
    have hb : (kvs.any fun kv => kv.1 == "content") = false := hk
    simp [processParsingResponse, pyContains, hb]

/-- C6 amended witness: a wrapper whose nested fields are all absent is
accepted, and an object without the content key is rejected. -/
theorem process_parsing_response_top_level_validation_witness :
    hasContentWrapper (Json.obj [("content", Json.null)]) = true
    ∧ processParsingResponse (some (Json.obj [("content", Json.null)]))
        = ProcResult.ok (Json.obj [("content", Json.null)]) :=
  ⟨by decide,
   process_parsing_response_top_level_validation.2.1 (Json.obj [("content", Json.null)]) (by decide)⟩

/-! ## C10: the rate-limit middleware -/

variable {T : Type} [LinearOrderedAddCommGroup T]

/-- Reading the slot just assigned in the request table. -/
theorem getCounts_set_same (st : List (String × List T)) (ip : String) (v : List T) :
    getCounts (setCounts st ip v) ip = v := by
  induction st with
  | nil => simp [setCounts, getCounts]
  | cons kv rest ih =>
    obtain ⟨k, w⟩ := kv
    by_cases hk : k = ip
    · simp [setCounts, getCounts, hk]
    · simp [setCounts, getCounts, hk, ih]

/-- Assignments to one client do not disturb the slots of the others. -/
theorem getCounts_set_other (st : List (String × List T)) (k2 ip : String) (v : List T)
    (hne : k2 ≠ ip) : getCounts (setCounts st k2 v) ip = getCounts st ip := by
  induction st with
  | nil => simp [setCounts, getCounts, hne]
  | cons kv rest ih =>
    obtain ⟨k, w⟩ := kv
    by_cases hk : k = k2
    · subst hk
      simp [setCounts, getCounts, hne]
    · have hne2 : ip ≠ k2 := fun h => hne h.symm
      by_cases hki : k = ip
      · simp [setCounts, getCounts, hk, hki, hne2]
      · simp [setCounts, getCounts, hk, hki, hne2, ih]

/-- Cleaning at an earlier time never protects a timestamp from a later
cleaning: the later filter absorbs the earlier one. -/
theorem rl_filter_later (w t now : T) (hle : t ≤ now) (l : List T) :
    (l.filter (fun x => decide (t - x < w))).filter (fun x => decide (now - x < w))
      = l.filter (fun x => decide (now - x < w)) := by
  induction l with
  | nil => rfl
  | cons a l ih =>
    by_cases h2 : now - a < w
    · have h1 : t - a < w := lt_of_le_of_lt (sub_le_sub_right hle a) h2
      simp [h1, h2, ih]
    · by_cases h1 : t - a < w
      · simp [h1, h2, ih]
      · simp [h1, h2, ih]

/-- Processing a concatenation of request batches chains the state and
concatenates the traces. -/
theorem rlRun_append (limit : Nat) (w : T) (xs ys : List (String × T))
    (st : List (String × List T)) :
    rlRun limit w (xs ++ ys) st
      = ((rlRun limit w xs st).1 ++ (rlRun limit w ys (rlRun limit w xs st).2).1,
         (rlRun limit w ys (rlRun limit w xs st).2).2) := by
  induction xs generalizing st with
  | nil => simp [rlRun]
  | cons r rest ih => simp [rlRun, ih]

/-- Admitted times distribute over trace concatenation. -/
theorem admittedTimes_append (tr1 tr2 : List ((String × T) × RLResponse)) (ip : String) :
    admittedTimes (tr1 ++ tr2) ip = admittedTimes tr1 ip ++ admittedTimes tr2 ip := by
  simp [admittedTimes]

/-- Admitted times of a trace extended at the front. -/
theorem admittedTimes_cons (a : String × T) (resp : RLResponse)
    (tr : List ((String × T) × RLResponse)) (ip : String) :
    admittedTimes ((a, resp) :: tr) ip
      = (if a.1 == ip && resp == RLResponse.forwarded then [a.2] else [])
        ++ admittedTimes tr ip := by
  simp only [admittedTimes, List.filter]
  split
  · next hcond => simp [hcond]
  · next hcond => simp [hcond]

/-- The run invariant: after processing a time-ordered request sequence,
the within-window part of the stored timestamp list of a client equals the
within-window part of its admitted times, on top of whatever survived from
the starting table. -/
theorem rlRun_counts (limit : Nat) (w : T) (reqs : List (String × T))
    (st : List (String × List T)) (ip : String) (now : T)
    (hmono : (reqs.map Prod.snd).Pairwise (· ≤ ·))
    (hle : ∀ r ∈ reqs, r.2 ≤ now) :
    (getCounts (rlRun limit w reqs st).2 ip).filter (fun x => decide (now - x < w))
      = (getCounts st ip).filter (fun x => decide (now - x < w))
        ++ (admittedTimes (rlRun limit w reqs st).1 ip).filter (fun x => decide (now - x < w)) := by
  induction reqs generalizing st with
  | nil => simp [rlRun, admittedTimes]
  | cons r rest ih =>
    obtain ⟨rip, rt⟩ := r
    have hmono2 : (rest.map Prod.snd).Pairwise (· ≤ ·) :=
      (List.pairwise_cons.mp hmono).2
    have hle2 : ∀ x ∈ rest, x.2 ≤ now := fun x hx => hle x (List.mem_cons_of_mem _ hx)
    have hrt : rt ≤ now := hle (rip, rt) (List.mem_cons_self _ _)
    simp only [rlRun]
    by_cases hip : rip = ip
    · subst hip
      simp only [rlDispatch]
      by_cases hlim : limit ≤ ((getCounts st rip).filter (fun x => decide (rt - x < w))).length
      · simp only [if_pos hlim]
        rw [ih _ hmono2 hle2, getCounts_set_same, rl_filter_later w rt now hrt,
          admittedTimes_cons]
        simp
      · simp only [if_neg hlim]
        rw [ih _ hmono2 hle2, getCounts_set_same, List.filter_append,
          rl_filter_later w rt now hrt, admittedTimes_cons]
        simp only [beq_self_eq_true, Bool.and_self, if_true, List.append_assoc]
        by_cases hnow : now - rt < w <;> simp [hnow]
    · have hipb : (rip == ip) = false := by simp [hip]
      simp only [rlDispatch]
      by_cases hlim : limit ≤ ((getCounts st rip).filter (fun x => decide (rt - x < w))).length
      · simp only [if_pos hlim]
        rw [ih _ hmono2 hle2, getCounts_set_other _ _ _ _ hip, admittedTimes_cons]
        simp [hipb]
      · simp only [if_neg hlim]
        rw [ih _ hmono2 hle2, getCounts_set_other _ _ _ _ hip,
          getCounts_set_other _ _ _ _ hip, admittedTimes_cons]
        simp [hipb]

/-- C10.  The rate-limit middleware, processed over any time-ordered
request sequence from the empty table: first, the next dispatch for a
client is forwarded exactly when fewer than the limit of its requests were
admitted within the preceding window (the only alternative answer being
the direct 429 response that never reaches the inner application and is
never recorded); second, the sliding-window invariant: within every
half-open window of one window length, at most the limit of requests of
any one client are admitted.  The source fixes the limit at 100 requests
and the window at 60 seconds. -/
theorem rate_limit_window_property (limit : Nat) (w : T) (reqs : List (String × T))
    (hmono : (reqs.map Prod.snd).Pairwise (· ≤ ·)) :
    (∀ ip now, (∀ r ∈ reqs, r.2 ≤ now) →
      (((rlDispatch limit w ip now (rlRun limit w reqs []).2).1 = RLResponse.forwarded)
        ↔ ((admittedTimes (rlRun limit w reqs []).1 ip).filter
            (fun a => decide (now - a < w))).length < limit)
      ∧ ((rlDispatch limit w ip now (rlRun limit w reqs []).2).1 = RLResponse.forwarded
          ∨ (rlDispatch limit w ip now (rlRun limit w reqs []).2).1 = RLResponse.tooManyRequests))
    ∧ (∀ ip s, ((admittedTimes (rlRun limit w reqs []).1 ip).filter
        (fun a => decide (s ≤ a ∧ a < s + w))).length ≤ limit) := by
  constructor
  · intro ip now hle
    have hkept : (getCounts (rlRun limit w reqs []).2 ip).filter (fun x => decide (now - x < w))
        = (admittedTimes (rlRun limit w reqs []).1 ip).filter (fun x => decide (now - x < w)) := by
      rw [rlRun_counts limit w reqs [] ip now hmono hle]
      simp [getCounts]
    constructor
    · simp only [rlDispatch, hkept]
      by_cases hlim : limit ≤ ((admittedTimes (rlRun limit w reqs []).1 ip).filter
          (fun x => decide (now - x < w))).length
      · simp [if_pos hlim, Nat.not_lt.mpr hlim]
      · simp [if_neg hlim, Nat.lt_of_not_le hlim]
    · simp only [rlDispatch]
      by_cases hlim : limit ≤ ((getCounts (rlRun limit w reqs []).2 ip).filter
          (fun x => decide (now - x < w))).length
      · right; simp [if_pos hlim]
      · left; simp [if_neg hlim]
  · revert hmono
    induction reqs using List.reverseRecOn with
    | nil => intro _ ip s; simp [rlRun, admittedTimes]
    | append_singleton init r ih =>
      intro hmono ip s
      have hdec := hmono
      rw [List.map_append, List.pairwise_append] at hdec
      obtain ⟨pwInit, _, hcross⟩ := hdec
      have hleInit : ∀ x ∈ init, x.2 ≤ r.2 := by
        intro x hx
        exact hcross x.2 (List.mem_map_of_mem Prod.snd hx) r.2 (by simp)
      rw [rlRun_append, admittedTimes_append, List.filter_append, List.length_append]
      have hlast : (rlRun limit w [r] (rlRun limit w init []).2).1
          = [((r.1, r.2), (rlDispatch limit w r.1 r.2 (rlRun limit w init []).2).1)] := by
        simp [rlRun]
      rw [hlast]
      by_cases hadm : r.1 = ip ∧ (rlDispatch limit w r.1 r.2 (rlRun limit w init []).2).1
          = RLResponse.forwarded
      · obtain ⟨hip, hfwd⟩ := hadm
        subst hip
        by_cases hwin : s ≤ r.2 ∧ r.2 < s + w
        · have htail : (admittedTimes
              [((r.1, r.2), (rlDispatch limit w r.1 r.2 (rlRun limit w init []).2).1)] r.1).filter
                (fun a => decide (s ≤ a ∧ a < s + w)) = [r.2] := by
            simp [admittedTimes, hfwd, hwin.1, hwin.2]
          rw [htail]
          have hkeq : (getCounts (rlRun limit w init []).2 r.1).filter
              (fun x => decide (r.2 - x < w))
              = (admittedTimes (rlRun limit w init []).1 r.1).filter
                (fun x => decide (r.2 - x < w)) := by
            rw [rlRun_counts limit w init [] r.1 r.2 pwInit hleInit]
            simp [getCounts]
          have hklt : ((getCounts (rlRun limit w init []).2 r.1).filter
              (fun x => decide (r.2 - x < w))).length < limit := by
            by_contra hcon
            have hge := Nat.le_of_not_lt hcon
            simp only [rlDispatch, if_pos hge] at hfwd
            exact absurd hfwd (by simp)
          have hsub : ((admittedTimes (rlRun limit w init []).1 r.1).filter
                (fun a => decide (s ≤ a ∧ a < s + w))).length
              ≤ ((admittedTimes (rlRun limit w init []).1 r.1).filter
                (fun x => decide (r.2 - x < w))).length := by
            refine List.Sublist.length_le (List.monotone_filter_right _ ?_)
            intro a ha
            simp only [decide_eq_true_eq] at ha ⊢
            have h1 : s + w ≤ a + w := add_le_add_right ha.1 w
            have h2 : r.2 < a + w := lt_of_lt_of_le hwin.2 h1
            rw [sub_lt_iff_lt_add]
            rw [add_comm]
            exact h2
          rw [hkeq] at hklt
          have := le_trans hsub (Nat.le_of_lt_succ (Nat.lt_succ_of_lt hklt))
          simp only [List.length_cons, List.length_nil]
          omega
        · have htail : (admittedTimes
              [((r.1, r.2), (rlDispatch limit w r.1 r.2 (rlRun limit w init []).2).1)] r.1).filter
                (fun a => decide (s ≤ a ∧ a < s + w)) = [] := by
            simp only [admittedTimes, List.filter, hfwd]
            simp [hwin]
          rw [htail]
          simpa using ih pwInit r.1 s
      · have htail : (admittedTimes
            [((r.1, r.2), (rlDispatch limit w r.1 r.2 (rlRun limit w init []).2).1)] ip).filter
              (fun a => decide (s ≤ a ∧ a < s + w)) = [] := by
          rcases not_and_or.mp hadm with hip | hfwd
          · simp [admittedTimes, hip]
          · cases hd : (rlDispatch limit w r.1 r.2 (rlRun limit w init []).2).1 with
            | forwarded => exact absurd hd hfwd
            | tooManyRequests => simp [admittedTimes, hd]
        rw [htail]
        simpa using ih pwInit ip s

/-- C10 witness: with limit 2 and window 60 over integer time, after
admissions at times 0 and 1 the dispatch at time 2 is rejected, and the
window starting at 0 holds two admitted requests. -/
theorem rate_limit_window_property_witness :
    ((([("a", (0 : Int)), ("a", 1), ("a", 2)].map Prod.snd).Pairwise (· ≤ ·))
    ∧ ((admittedTimes (rlRun 2 (60 : Int) [("a", 0), ("a", 1), ("a", 2)] []).1 "a").filter
        (fun a => decide ((0 : Int) ≤ a ∧ a < 0 + 60))).length ≤ 2) :=
  ⟨by decide,
   (rate_limit_window_property 2 (60 : Int) [("a", 0), ("a", 1), ("a", 2)] (by decide)).2 "a" 0⟩

/-! ## Experience-loop lemmas shared by the route claims -/

/-- The experience loop never touches the resumes or parsed_resumes
tables, whether it completes or aborts. -/
theorem processExperiences_db (failW : Option Nat) (rid : Nat) :
    ∀ (exps : List Json) (db : DB) (w : Nat),
      (loopDB (processExperiences failW rid exps db w)).resumes = db.resumes
      ∧ (loopDB (processExperiences failW rid exps db w)).parsed_resumes = db.parsed_resumes := by
  intro exps
  induction exps with
  | nil => intro db w; exact ⟨rfl, rfl⟩
  | cons exp rest ih =>
    intro db w
    cases exp with
    | obj kvs =>
      simp only [processExperiences]
      by_cases hf : failW = some w
      · simp [hf, loopDB]
      · simp only [if_neg hf]
        cases hp : Json.alookup kvs "points" with
        | none => simpa [hp] using ih _ _
        | some pv =>
          by_cases ht : pv.truthy = true
          · cases hi : pyIter pv with
            | error m => simp [hp, ht, hi, loopDB]
            | ok pts =>
              by_cases hf2 : failW = some (w + 1)
              · simp [hp, ht, hi, hf2, loopDB]
              · simpa [hp, ht, hi, hf2] using ih _ _
          · simpa [hp, ht] using ih _ _
    | null => exact ⟨rfl, rfl⟩
    | bool b => exact ⟨rfl, rfl⟩
    | num n => exact ⟨rfl, rfl⟩
    | str s => exact ⟨rfl, rfl⟩
    | arr xs => exact ⟨rfl, rfl⟩

/-- A value passing the iterability test can be iterated. -/
theorem iterOk_pyIter (pv : Json) (h : iterOk pv = true) :
    ∃ pts, pyIter pv = Except.ok pts := by
  cases pv with
  | arr xs => exact ⟨xs, rfl⟩
  | str s => exact ⟨_, rfl⟩
  | obj kvs => exact ⟨_, rfl⟩
  | null => simp [iterOk] at h
  | bool b => simp [iterOk] at h
  | num n => simp [iterOk] at h

/-- The write count of a nonempty entry list decomposes at the head. -/
theorem loopWrites_cons (e : List (String × Json)) (rest : List (List (String × Json))) :
    loopWrites (e :: rest) = expWrites e + loopWrites rest := by
  simp [loopWrites]

/-- An entry without a points key performs one write. -/
theorem expWrites_points_none (e : List (String × Json))
    (hp : Json.alookup e "points" = none) : expWrites e = 1 := by
  simp [expWrites, hp]

/-- An entry with a points key performs one write plus one for a truthy
value. -/
theorem expWrites_points_some (e : List (String × Json)) (pv : Json)
    (hp : Json.alookup e "points" = some pv) :
    expWrites e = 1 + (if pv.truthy then 1 else 0) := by
  simp [expWrites, hp]

/-- Running the experience loop without injected failure on well-formed
dict entries succeeds: it performs one write per entry plus one per truthy
points value, appends exactly one professional_experiences row per entry,
each referencing the Application, appends some experience_points rows, and
leaves every other table alone. -/
theorem processExperiences_none_spec (rid : Nat) :
    ∀ (exps : List (List (String × Json))) (db : DB) (w : Nat),
      (∀ e ∈ exps, pointsOk e = true) →
      ∃ db2, processExperiences none rid (exps.map Json.obj) db w
          = Except.ok (db2, w + loopWrites exps)
        ∧ db2.resumes = db.resumes
        ∧ db2.parsed_resumes = db.parsed_resumes
        ∧ (∃ rows, db2.professional_experiences = db.professional_experiences ++ rows
            ∧ rows.length = exps.length
            ∧ rows.all (fun r => r.resume_id == rid) = true)
        ∧ (∃ pts, db2.experience_points = db.experience_points ++ pts) := by
  intro exps
  induction exps with
  | nil =>
    intro db w _
    exact ⟨db, by simp [processExperiences, loopWrites], rfl, rfl,
      ⟨[], by simp⟩, ⟨[], by simp⟩⟩
  | cons e rest ih =>
    intro db w hok
    have hoke : pointsOk e = true := hok e (List.mem_cons_self _ _)
    have hokr : ∀ x ∈ rest, pointsOk x = true := fun x hx => hok x (List.mem_cons_of_mem _ hx)
    simp only [List.map, processExperiences, if_neg (by simp : ¬ (none : Option Nat) = some w)]
    cases hp : Json.alookup e "points" with
    | none =>
      simp only [hp]
      have harith : w + loopWrites (e :: rest) = w + 1 + loopWrites rest := by
        rw [loopWrites_cons, expWrites_points_none e hp]
        omega
      rw [harith]
      obtain ⟨db2, heq, hres, hpar, ⟨rows, hrows, hlen, hall⟩, ⟨pts, hpts⟩⟩ :=
        ih _ (w + 1) hokr
      refine ⟨db2, heq, ?_, ?_, ⟨expRowFrom rid e db :: rows, ?_, ?_, ?_⟩, ⟨pts, ?_⟩⟩
      · exact hres
      · exact hpar
      · simpa using hrows
      · simp [hlen]
      · simpa [expRowFrom] using hall
      · simpa using hpts
    | some pv =>
      simp only [hp]
      by_cases ht : pv.truthy = true
      · have hiter : iterOk pv = true := by
          have h2 := hoke
          simp [pointsOk, hp, ht] at h2
          exact h2
        obtain ⟨pts0, hpts0⟩ := iterOk_pyIter pv hiter
        simp only [ht, if_true, hpts0, if_neg (by simp : ¬ (none : Option Nat) = some (w + 1))]
        have harith : w + loopWrites (e :: rest) = w + 2 + loopWrites rest := by
          rw [loopWrites_cons, expWrites_points_some e pv hp, if_pos ht]
          omega
        rw [harith]
        obtain ⟨db2, heq, hres, hpar, ⟨rows, hrows, hlen, hall⟩, ⟨pts, hpts⟩⟩ :=
          ih _ (w + 2) hokr
        refine ⟨db2, heq, ?_, ?_, ⟨expRowFrom rid e db :: rows, ?_, ?_, ?_⟩, ⟨pts0.enum.map (fun ip => PointRow.mk (db.nextId + 1 + ip.1) (expRowFrom rid e db).id ip.2) ++ pts, ?_⟩⟩
        · exact hres
        · exact hpar
        · simpa using hrows
        · simp [hlen]
        · simpa [expRowFrom] using hall
        · simpa [expRowFrom] using hpts
      · simp only [ht, if_false]
        have harith : w + loopWrites (e :: rest) = w + 1 + loopWrites rest := by
          rw [loopWrites_cons, expWrites_points_some e pv hp, if_neg ht]
          omega
        rw [harith]
        obtain ⟨db2, heq, hres, hpar, ⟨rows, hrows, hlen, hall⟩, ⟨pts, hpts⟩⟩ :=
          ih _ (w + 1) hokr
        refine ⟨db2, heq, ?_, ?_, ⟨expRowFrom rid e db :: rows, ?_, ?_, ?_⟩, ⟨pts, ?_⟩⟩
        · exact hres
        · exact hpar
        · simpa using hrows
        · simp [hlen]
        · simpa [expRowFrom] using hall
        · simpa using hpts

/-- Every entry performs at least its row-insert write. -/
theorem one_le_expWrites (e : List (String × Json)) : 1 ≤ expWrites e := by
  cases hp : Json.alookup e "points" with
  | none => rw [expWrites_points_none e hp]
  | some pv => rw [expWrites_points_some e pv hp]; omega

/-- A write failure injected beyond all the writes of the loop does not
change its behaviour. -/
theorem processExperiences_fail_beyond (rid f : Nat) :
    ∀ (exps : List (List (String × Json))) (db : DB) (w : Nat),
      w + loopWrites exps ≤ f →
      processExperiences (some f) rid (exps.map Json.obj) db w
        = processExperiences none rid (exps.map Json.obj) db w := by
  intro exps
  induction exps with
  | nil => intro db w _; rfl
  | cons e rest ih =>
    intro db w hle
    have h1 := one_le_expWrites e
    have hle2 := hle
    rw [loopWrites_cons] at hle2
    have hwf : ¬ ((some f : Option Nat) = some w) := by
      simp only [Option.some.injEq]
      omega
    simp only [List.map, processExperiences, if_neg hwf,
      if_neg (by simp : ¬ (none : Option Nat) = some w)]
    cases hp : Json.alookup e "points" with
    | none =>
      simp only [hp]
      apply ih
      rw [expWrites_points_none e hp] at hle2
      omega
    | some pv =>
      simp only [hp]
      by_cases ht : pv.truthy = true
      · rw [expWrites_points_some e pv hp, if_pos ht] at hle2
        cases hi : pyIter pv with
        | error m => simp [ht, hi]
        | ok pts =>
          have hwf2 : ¬ ((some f : Option Nat) = some (w + 1)) := by
            simp only [Option.some.injEq]
            omega
          simp only [ht, if_true, hi, if_neg hwf2,
            if_neg (by simp : ¬ (none : Option Nat) = some (w + 1))]
          apply ih
          omega
      · rw [expWrites_points_some e pv hp, if_neg ht] at hle2
        simp only [if_neg ht]
        apply ih
        omega

/-- Injecting the failure at the row-insert write of the entry after a
well-formed prefix aborts the loop there, with the database exactly as the
failure-free loop leaves it after the prefix. -/
theorem processExperiences_fail_entry (rid : Nat) :
    ∀ (xs : List (List (String × Json))) (e : List (String × Json)) (ys : List Json)
      (db : DB) (w : Nat), (∀ x ∈ xs, pointsOk x = true) →
      ∃ db2, processExperiences none rid (xs.map Json.obj) db w
          = Except.ok (db2, w + loopWrites xs)
        ∧ processExperiences (some (w + loopWrites xs)) rid
            (xs.map Json.obj ++ Json.obj e :: ys) db w
          = Except.error ("insert professional_experiences failed", db2, w + loopWrites xs + 1) := by
  intro xs
  induction xs with
  | nil =>
    intro e ys db w _
    refine ⟨db, by simp [processExperiences, loopWrites], ?_⟩
    simp [processExperiences, loopWrites]
  | cons x xs ih =>
    intro e ys db w hok
    have hokx : pointsOk x = true := hok x (List.mem_cons_self _ _)
    have hokxs : ∀ y ∈ xs, pointsOk y = true := fun y hy => hok y (List.mem_cons_of_mem _ hy)
    have h1 := one_le_expWrites x
    have hwf : ¬ ((some (w + loopWrites (x :: xs)) : Option Nat) = some w) := by
      rw [loopWrites_cons]
      simp only [Option.some.injEq]
      omega
    simp only [List.map, List.cons_append, processExperiences, if_neg hwf,
      if_neg (by simp : ¬ (none : Option Nat) = some w)]
    cases hp : Json.alookup x "points" with
    | none =>
      simp only [hp]
      have harith : w + loopWrites (x :: xs) = w + 1 + loopWrites xs := by
        rw [loopWrites_cons, expWrites_points_none x hp]
        omega
      rw [harith]
      exact ih e ys _ (w + 1) hokxs
    | some pv =>
      simp only [hp]
      by_cases ht : pv.truthy = true
      · have hiter : iterOk pv = true := by
          have h2 := hokx
          simp [pointsOk, hp, ht] at h2
          exact h2
        obtain ⟨pts0, hpts0⟩ := iterOk_pyIter pv hiter
        have hwf2 : ¬ ((some (w + loopWrites (x :: xs)) : Option Nat) = some (w + 1)) := by
          rw [loopWrites_cons, expWrites_points_some x pv hp, if_pos ht]
          simp only [Option.some.injEq]
          omega
        simp only [ht, if_true, hpts0, if_neg hwf2,
          if_neg (by simp : ¬ (none : Option Nat) = some (w + 1))]
        have harith : w + loopWrites (x :: xs) = w + 2 + loopWrites xs := by
          rw [loopWrites_cons, expWrites_points_some x pv hp, if_pos ht]
          omega
        rw [harith]
        exact ih e ys _ (w + 2) hokxs
      · simp only [if_neg ht]
        have harith : w + loopWrites (x :: xs) = w + 1 + loopWrites xs := by
          rw [loopWrites_cons, expWrites_points_some x pv hp, if_neg ht]
          omega
        rw [harith]
        exact ih e ys _ (w + 1) hokxs

/-- Injecting the failure one write later, at the bulk points insert of an
entry with a truthy points value, aborts the loop with the row of that
entry inserted and its points not inserted; a truthy non-iterable points
value aborts the same way one step earlier while building the rows. -/
theorem processExperiences_fail_points (rid : Nat) :
    ∀ (xs : List (List (String × Json))) (e : List (String × Json)) (ys : List Json)
      (db : DB) (w : Nat), (∀ x ∈ xs, pointsOk x = true) →
      Json.truthy ((Json.alookup e "points").getD Json.null) = true →
      ∃ db2, processExperiences none rid (xs.map Json.obj) db w
          = Except.ok (db2, w + loopWrites xs)
        ∧ ∃ msg db3 wf, processExperiences (some (w + loopWrites xs + 1)) rid
              (xs.map Json.obj ++ Json.obj e :: ys) db w = Except.error (msg, db3, wf)
          ∧ db3.resumes = db2.resumes
          ∧ db3.parsed_resumes = db2.parsed_resumes
          ∧ db3.professional_experiences
              = db2.professional_experiences ++ [expRowFrom rid e db2]
          ∧ db3.experience_points = db2.experience_points := by
  intro xs
  induction xs with
  | nil =>
    intro e ys db w _ htr
    refine ⟨db, by simp [processExperiences, loopWrites], ?_⟩
    have h0 : w + loopWrites ([] : List (List (String × Json))) + 1 = w + 1 := by
      simp [loopWrites]
    rw [h0]
    cases hpe : Json.alookup e "points" with
    | none => rw [hpe] at htr; simp [Json.truthy] at htr
    | some pv =>
      rw [hpe] at htr
      simp only [Option.getD_some] at htr
      simp only [List.map, List.nil_append, processExperiences,
        if_neg (by simp : ¬ ((some (w + 1) : Option Nat)) = some w), hpe]
      rw [if_pos htr]
      cases hi : pyIter pv with
      | error m =>
        simp only [hi]
        exact ⟨m, _, w + 1, rfl, rfl, rfl, rfl, rfl⟩
      | ok pts =>
        simp only [hi, if_pos (rfl : (some (w + 1) : Option Nat) = some (w + 1))]
        exact ⟨"insert experience_points failed", _, w + 2, rfl, rfl, rfl, rfl, rfl⟩
  | cons x xs ih =>
    intro e ys db w hok htr
    have hokx : pointsOk x = true := hok x (List.mem_cons_self _ _)
    have hokxs : ∀ y ∈ xs, pointsOk y = true := fun y hy => hok y (List.mem_cons_of_mem _ hy)
    have h1 := one_le_expWrites x
    have hwf : ¬ ((some (w + loopWrites (x :: xs) + 1) : Option Nat) = some w) := by
      rw [loopWrites_cons]
      simp only [Option.some.injEq]
      omega
    simp only [List.map, List.cons_append, processExperiences, if_neg hwf,
      if_neg (by simp : ¬ (none : Option Nat) = some w)]
    cases hp : Json.alookup x "points" with
    | none =>
      simp only [hp]
      have harith : w + loopWrites (x :: xs) = w + 1 + loopWrites xs := by
        rw [loopWrites_cons, expWrites_points_none x hp]
        omega
      rw [harith]
      exact ih e ys _ (w + 1) hokxs htr
    | some pv =>
      simp only [hp]
      by_cases ht : pv.truthy = true
      · have hiter : iterOk pv = true := by
          have h2 := hokx
          simp [pointsOk, hp, ht] at h2
          exact h2
        obtain ⟨pts0, hpts0⟩ := iterOk_pyIter pv hiter
        have hwf2 : ¬ ((some (w + loopWrites (x :: xs) + 1) : Option Nat) = some (w + 1)) := by
          rw [loopWrites_cons, expWrites_points_some x pv hp, if_pos ht]
          simp only [Option.some.injEq]
          omega
        simp only [ht, if_true, hpts0, if_neg hwf2,
          if_neg (by simp : ¬ (none : Option Nat) = some (w + 1))]
        have harith : w + loopWrites (x :: xs) = w + 2 + loopWrites xs := by
          rw [loopWrites_cons, expWrites_points_some x pv hp, if_pos ht]
          omega
        rw [harith]
        exact ih e ys _ (w + 2) hokxs htr
      · simp only [if_neg ht]
        have harith : w + loopWrites (x :: xs) = w + 1 + loopWrites xs := by
          rw [loopWrites_cons, expWrites_points_some x pv hp, if_neg ht]
          omega
        rw [harith]
        exact ih e ys _ (w + 1) hokxs htr

/-! ## Route-level lemmas -/

/-- Corollary of the loop frame lemma for an aborted run. -/
theorem processExperiences_db_error (failW : Option Nat) (rid : Nat) (exps : List Json)
    (db : DB) (w : Nat) (m : String) (db3 : DB) (w3 : Nat)
    (heq : processExperiences failW rid exps db w = Except.error (m, db3, w3)) :
    db3.resumes = db.resumes ∧ db3.parsed_resumes = db.parsed_resumes := by
  have h := processExperiences_db failW rid exps db w
  rw [heq] at h
  exact h

/-- Corollary of the loop frame lemma for a completed run. -/
theorem processExperiences_db_ok (failW : Option Nat) (rid : Nat) (exps : List Json)
    (db : DB) (w : Nat) (db3 : DB) (w3 : Nat)
    (heq : processExperiences failW rid exps db w = Except.ok (db3, w3)) :
    db3.resumes = db.resumes ∧ db3.parsed_resumes = db.parsed_resumes := by
  have h := processExperiences_db failW rid exps db w
  rw [heq] at h
  exact h

/-- The record-building stage leaves the parse cache alone and passes the
event trace and the used-parse observation through unchanged. -/
theorem buildApplicationRecords_frame (failW : Option Nat) (uid : String) (req : ParseReq)
    (db : DB) (pd : Json) (reused : Bool) (up : Option Nat) (evs : List Event) (w : Nat) :
    (buildApplicationRecords failW uid req db pd reused up evs w).db.parsed_resumes
        = db.parsed_resumes
    ∧ (buildApplicationRecords failW uid req db pd reused up evs w).events = evs
    ∧ (buildApplicationRecords failW uid req db pd reused up evs w).usedParsed = up := by
  unfold buildApplicationRecords
  by_cases h0 : failW = some w
  · simp [h0]
  · simp only [if_neg h0]
    cases hs : getSections pd with
    | error m => exact ⟨rfl, rfl, rfl⟩
    | ok items =>
      simp only [hs]
      cases hu : buildUpdateData items with
      | error m => exact ⟨rfl, rfl, rfl⟩
      | ok u =>
        simp only [hu]
        by_cases h1 : failW = some (w + 1)
        · simp [h1]
        · simp only [if_neg h1]
          cases hpe : pyNext items "professional_experience" sectionEntries (Json.arr []) with
          | error m => exact ⟨rfl, rfl, rfl⟩
          | ok pe =>
            simp only [hpe]
            cases hit : pyIter pe with
            | error m => exact ⟨rfl, rfl, rfl⟩
            | ok pexp =>
              simp only [hit]
              split
              · next m db3 w3 heq =>
                have hdb := processExperiences_db_error failW db.nextId pexp _ (w + 2) m db3 w3 heq
                exact ⟨hdb.2, rfl, rfl⟩
              · next db3 w3 heq =>
                have hdb := processExperiences_db_ok failW db.nextId pexp _ (w + 2) db3 w3 heq
                exact ⟨hdb.2, rfl, rfl⟩

/-- Every resumes row present after the record-building stage is either a
pre-existing row or carries the literal header fields: the caller metadata
together with status Writing CV, parsing completed and analysis pending. -/
theorem buildApplicationRecords_resumes (failW : Option Nat) (uid : String) (req : ParseReq)
    (db : DB) (pd : Json) (reused : Bool) (up : Option Nat) (evs : List Event) (w : Nat)
    (hwf : ∀ r ∈ db.resumes, r.id < db.nextId) :
    ∀ r2 ∈ (buildApplicationRecords failW uid req db pd reused up evs w).db.resumes,
      r2 ∈ db.resumes
      ∨ (r2.user_id = uid ∧ r2.job_description = req.jobDescription
         ∧ r2.company_applied = req.companyApplied ∧ r2.role_applied = req.roleApplied
         ∧ r2.status = "Writing CV" ∧ r2.parsing_status = "completed"
         ∧ r2.analysis_status = "pending") := by
  intro r2
  have happend : ∀ hr2 : r2 ∈ db.resumes ++
      [{ id := db.nextId, user_id := uid, job_description := req.jobDescription,
         company_applied := req.companyApplied, role_applied := req.roleApplied,
         status := "Writing CV", parsing_status := "completed", analysis_status := "pending",
         buckets := none, jd_analysis := none : ResumeRow }],
      r2 ∈ db.resumes ∨ (r2.user_id = uid ∧ r2.job_description = req.jobDescription
        ∧ r2.company_applied = req.companyApplied ∧ r2.role_applied = req.roleApplied
        ∧ r2.status = "Writing CV" ∧ r2.parsing_status = "completed"
        ∧ r2.analysis_status = "pending") := by
    intro hr2
    rcases List.mem_append.mp hr2 with h | h
    · exact Or.inl h
    · simp only [List.mem_singleton] at h
      subst h
      exact Or.inr ⟨rfl, rfl, rfl, rfl, rfl, rfl, rfl⟩
  have hmapped : ∀ (u : UpdateData),
      ∀ hr2 : r2 ∈ (db.resumes ++
        [{ id := db.nextId, user_id := uid, job_description := req.jobDescription,
           company_applied := req.companyApplied, role_applied := req.roleApplied,
           status := "Writing CV", parsing_status := "completed", analysis_status := "pending",
           buckets := none, jd_analysis := none : ResumeRow }]).map
          (fun r => if r.id = db.nextId then { r with buckets := some u } else r),
      r2 ∈ db.resumes ∨ (r2.user_id = uid ∧ r2.job_description = req.jobDescription
        ∧ r2.company_applied = req.companyApplied ∧ r2.role_applied = req.roleApplied
        ∧ r2.status = "Writing CV" ∧ r2.parsing_status = "completed"
        ∧ r2.analysis_status = "pending") := by
    intro u hr2
    rcases List.mem_map.mp hr2 with ⟨x, hx, hgx⟩
    rcases List.mem_append.mp hx with hxl | hxr
    · have hne : ¬ x.id = db.nextId := Nat.ne_of_lt (hwf x hxl)
      rw [if_neg hne] at hgx
      subst hgx
      exact Or.inl hxl
    · simp only [List.mem_singleton] at hxr
      subst hxr
      simp only [if_pos rfl] at hgx
      subst hgx
      exact Or.inr ⟨rfl, rfl, rfl, rfl, rfl, rfl, rfl⟩
  unfold buildApplicationRecords
  by_cases h0 : failW = some w
  · simp only [if_pos h0]
    exact fun hr2 => Or.inl hr2
  · simp only [if_neg h0]
    cases hs : getSections pd with
    | error m => exact happend
    | ok items =>
      simp only [hs]
      cases hu : buildUpdateData items with
      | error m => exact happend
      | ok u =>
        simp only [hu]
        by_cases h1 : failW = some (w + 1)
        · simp only [if_pos h1]
          exact happend
        · simp only [if_neg h1]
          cases hpe : pyNext items "professional_experience" sectionEntries (Json.arr []) with
          | error m => exact hmapped u
          | ok pe =>
            simp only [hpe]
            cases hit : pyIter pe with
            | error m => exact hmapped u
            | ok pexp =>
              simp only [hit]
              split
              · next m db3 w3 heq =>
                have hdb := processExperiences_db_error failW db.nextId pexp _ (w + 2) m db3 w3 heq
                intro hr2
                rw [show (ParseOutcome.mk (Except.error (500, m)) db3 evs up).db = db3 from rfl] at hr2
                rw [hdb.1] at hr2
                exact hmapped u hr2
              · next db3 w3 heq =>
                have hdb := processExperiences_db_ok failW db.nextId pexp _ (w + 2) db3 w3 heq
                intro hr2
                rw [show (ParseOutcome.mk
                    (Except.ok ⟨"success", db.nextId, "Resume processed successfully", reused⟩)
                    db3 evs up).db = db3 from rfl] at hr2
                rw [hdb.1] at hr2
                exact hmapped u hr2

/-- C8.  Every Application header row the ingestion pipeline adds to the
resumes table (whatever path produced the parsed data, and whether or not
a later write fails) carries status Writing CV, parsing-status completed,
analysis-status pending, and the caller-supplied user, company, role and
job-description metadata.  Rows already present are left as they are; the
well-formedness hypothesis says the ids already present stay below the id
counter, as the backend guarantees. -/
theorem parse_resume_header_fields (env : Env) (failW : Option Nat) (uid : String)
    (req : ParseReq) (db : DB) (hwf : ∀ r ∈ db.resumes, r.id < db.nextId) :
    ∀ r2 ∈ (parseResumeRoute env failW uid req db).db.resumes,
      r2 ∈ db.resumes
      ∨ (r2.user_id = uid ∧ r2.job_description = req.jobDescription
         ∧ r2.company_applied = req.companyApplied ∧ r2.role_applied = req.roleApplied
         ∧ r2.status = "Writing CV" ∧ r2.parsing_status = "completed"
         ∧ r2.analysis_status = "pending") := by
  intro r2
  unfold parseResumeRoute
  cases hpid : req.parsed_resume_id with
  | some pid =>
    cases hfind : db.parsed_resumes.find? (fun r => r.id == pid) with
    | none =>
      simp only [hfind]
      exact fun hr2 => Or.inl hr2
    | some row =>
      simp only [hfind]
      exact buildApplicationRecords_resumes failW uid req db row.parsed_data
        (isReusedValue (some pid) []) (some row.id) [] 0 hwf r2
  | none =>
    cases hres : req.resume with
    | none => exact fun hr2 => Or.inl hr2
    | some cf =>
      obtain ⟨content, filename⟩ := cf
      cases hfil : db.parsed_resumes.filter (fun r => r.file_hash == env.md5 content) with
      | cons row rest =>
        simp only [hfil]
        exact buildApplicationRecords_resumes failW uid req db row.parsed_data
          (isReusedValue none (row :: rest)) (some row.id) [] 0 hwf r2
      | nil =>
        simp only [hfil]
        cases hsvc : parserServiceParseResume env content filename with
        | mk res evs2 =>
          cases res with
          | error e => exact fun hr2 => Or.inl hr2
          | ok parsed_data =>
            by_cases hf0 : failW = some 0
            · simp only [if_pos hf0]
              exact fun hr2 => Or.inl hr2
            · simp only [if_neg hf0]
              exact buildApplicationRecords_resumes failW uid req
                (DB.mk
                  (db.parsed_resumes ++
                    [ParsedResumeRow.mk db.nextId uid (env.md5 content) parsed_data filename])
                  db.resumes db.professional_experiences db.experience_points (db.nextId + 1))
                parsed_data (isReusedValue none []) (some db.nextId) evs2 1
                (fun r hr => Nat.lt_succ_of_lt (hwf r hr)) r2

/-! ## C7: missing optional sections default to empty containers -/

/-- A by-type lookup over dict sections always succeeds. -/
theorem pyNext_obj_total (secs : List (List (String × Json))) (t : String)
    (val : List (String × Json) → Json) (d : Json) :
    ∃ j, pyNext (secs.map Json.obj) t val d = Except.ok j := by
  induction secs with
  | nil => exact ⟨d, rfl⟩
  | cons s rest ih =>
    simp only [List.map, pyNext]
    by_cases hm : typeMatches s t = true
    · exact ⟨val s, by rw [if_pos hm]⟩
    · rw [if_neg hm]
      exact ih

/-- A by-type lookup over dict sections lacking the type falls back to the
default container. -/
theorem pyNext_missing (secs : List (List (String × Json))) (t : String)
    (val : List (String × Json) → Json) (d : Json)
    (h : ∀ kvs ∈ secs, typeMatches kvs t = false) :
    pyNext (secs.map Json.obj) t val d = Except.ok d := by
  induction secs with
  | nil => rfl
  | cons s rest ih =>
    simp only [List.map, pyNext]
    rw [if_neg (by simp [h s (List.mem_cons_self _ _)])]
    exact ih (fun kvs hk => h kvs (List.mem_cons_of_mem _ hk))

/-- The step 4 chain of gets on the wrapped shape produces the section
list. -/
theorem getSections_wrap (secs : List (List (String × Json))) :
    getSections (wrapSections secs) = Except.ok (secs.map Json.obj) := by
  simp only [getSections, wrapSections, pyDictGet, Json.alookup]
  rfl

/-- C7.  For a structured parse whose section list consists of dict
sections: the bucket decomposition always succeeds, and for each of the
optional section types, when no section carries that type the
corresponding bucket is its empty container (empty dict for contact
information, empty list for the entry sections, empty string for the
executive summary); moreover, when the professional_experience lookup
yields an empty list (the section being absent or empty), record building
completes without error, persists the buckets onto the created Application
row, and inserts zero ProfessionalExperience rows. -/
theorem missing_sections_default_empty (uid : String) (req : ParseReq) (db : DB)
    (secs : List (List (String × Json))) (reused : Bool) (up : Option Nat)
    (evs : List Event) (w : Nat)
    (hpe : pyNext (secs.map Json.obj) "professional_experience" sectionEntries (Json.arr [])
      = Except.ok (Json.arr [])) :
    ∃ u, buildUpdateData (secs.map Json.obj) = Except.ok u
      ∧ ((∀ kvs ∈ secs, typeMatches kvs "contact_information" = false) →
          u.contact_information = Json.obj [])
      ∧ ((∀ kvs ∈ secs, typeMatches kvs "education" = false) → u.education = Json.arr [])
      ∧ ((∀ kvs ∈ secs, typeMatches kvs "skills" = false) → u.skills = Json.arr [])
      ∧ ((∀ kvs ∈ secs, typeMatches kvs "certificates" = false) → u.certificates = Json.arr [])
      ∧ ((∀ kvs ∈ secs, typeMatches kvs "miscellaneous" = false) →
          u.miscellaneous = Json.arr [])
      ∧ ((∀ kvs ∈ secs, typeMatches kvs "executive summary" = false) →
          u.executive_summary = Json.str "")
      ∧ ((∀ kvs ∈ secs, typeMatches kvs "personal_projects" = false) →
          u.personal_projects = Json.arr [])
      ∧ (buildApplicationRecords none uid req db (wrapSections secs) reused up evs w).result
          = Except.ok ⟨"success", db.nextId, "Resume processed successfully", reused⟩
      ∧ (buildApplicationRecords none uid req db
            (wrapSections secs) reused up evs w).db.professional_experiences
          = db.professional_experiences
      ∧ (∃ r2 ∈ (buildApplicationRecords none uid req db
            (wrapSections secs) reused up evs w).db.resumes,
          r2.id = db.nextId ∧ r2.buckets = some u) := by
  obtain ⟨ci, hci⟩ := pyNext_obj_total secs "contact_information" sectionContent (Json.obj [])
  obtain ⟨ed, hed⟩ := pyNext_obj_total secs "education" sectionEntries (Json.arr [])
  obtain ⟨sk, hsk⟩ := pyNext_obj_total secs "skills" sectionEntries (Json.arr [])
  obtain ⟨ce, hce⟩ := pyNext_obj_total secs "certificates" sectionEntries (Json.arr [])
  obtain ⟨mi, hmi⟩ := pyNext_obj_total secs "miscellaneous" sectionEntries (Json.arr [])
  obtain ⟨ex, hex⟩ := pyNext_obj_total secs "executive summary" sectionSummary (Json.str "")
  obtain ⟨pp, hpp⟩ := pyNext_obj_total secs "personal_projects" sectionEntries (Json.arr [])
  have hbu : buildUpdateData (secs.map Json.obj) = Except.ok ⟨ci, ed, sk, ce, mi, ex, pp⟩ := by
    rw [buildUpdateData, hci, hed, hsk, hce, hmi, hex, hpp]
    rfl
  refine ⟨⟨ci, ed, sk, ce, mi, ex, pp⟩, hbu, ?_, ?_, ?_, ?_, ?_, ?_, ?_, ?_, ?_, ?_⟩
  · intro h
    exact Except.ok.inj (hci.symm.trans (pyNext_missing secs _ _ _ h))
  · intro h
    exact Except.ok.inj (hed.symm.trans (pyNext_missing secs _ _ _ h))
  · intro h
    exact Except.ok.inj (hsk.symm.trans (pyNext_missing secs _ _ _ h))
  · intro h
    exact Except.ok.inj (hce.symm.trans (pyNext_missing secs _ _ _ h))
  · intro h
    exact Except.ok.inj (hmi.symm.trans (pyNext_missing secs _ _ _ h))
  · intro h
    exact Except.ok.inj (hex.symm.trans (pyNext_missing secs _ _ _ h))
  · intro h
    exact Except.ok.inj (hpp.symm.trans (pyNext_missing secs _ _ _ h))
  · simp only [buildApplicationRecords, if_neg (by simp : ¬ (none : Option Nat) = some w),
      getSections_wrap, hbu, if_neg (by simp : ¬ (none : Option Nat) = some (w + 1)),
      hpe, pyIter, processExperiences]
  · simp only [buildApplicationRecords, if_neg (by simp : ¬ (none : Option Nat) = some w),
      getSections_wrap, hbu, if_neg (by simp : ¬ (none : Option Nat) = some (w + 1)),
      hpe, pyIter, processExperiences]
  · simp only [buildApplicationRecords, if_neg (by simp : ¬ (none : Option Nat) = some w),
      getSections_wrap, hbu, if_neg (by simp : ¬ (none : Option Nat) = some (w + 1)),
      hpe, pyIter, processExperiences]
    have hmem := List.mem_map_of_mem
      (fun r : ResumeRow => if r.id = db.nextId then
        { r with buckets := some (UpdateData.mk ci ed sk ce mi ex pp) } else r)
      (List.mem_append_right db.resumes (List.mem_singleton_self
        (ResumeRow.mk db.nextId uid req.jobDescription req.companyApplied req.roleApplied
          "Writing CV" "completed" "pending" none none)))
    refine ⟨_, hmem, ?_, ?_⟩
    · simp
    · simp

/-- C7 witness: the empty section list, where every lookup defaults. -/
theorem missing_sections_default_empty_witness :
    (pyNext (([] : List (List (String × Json))).map Json.obj) "professional_experience"
        sectionEntries (Json.arr []) = Except.ok (Json.arr []))
    ∧ ∃ u, buildUpdateData (([] : List (List (String × Json))).map Json.obj) = Except.ok u
      ∧ ((∀ kvs ∈ ([] : List (List (String × Json))), typeMatches kvs "contact_information" = false) →
          u.contact_information = Json.obj [])
      ∧ ((∀ kvs ∈ ([] : List (List (String × Json))), typeMatches kvs "education" = false) →
          u.education = Json.arr [])
      ∧ ((∀ kvs ∈ ([] : List (List (String × Json))), typeMatches kvs "skills" = false) →
          u.skills = Json.arr [])
      ∧ ((∀ kvs ∈ ([] : List (List (String × Json))), typeMatches kvs "certificates" = false) →
          u.certificates = Json.arr [])
      ∧ ((∀ kvs ∈ ([] : List (List (String × Json))), typeMatches kvs "miscellaneous" = false) →
          u.miscellaneous = Json.arr [])
      ∧ ((∀ kvs ∈ ([] : List (List (String × Json))), typeMatches kvs "executive summary" = false) →
          u.executive_summary = Json.str "")
      ∧ ((∀ kvs ∈ ([] : List (List (String × Json))), typeMatches kvs "personal_projects" = false) →
          u.personal_projects = Json.arr [])
      ∧ (buildApplicationRecords none "user-1" req0 DB.empty
            (wrapSections []) true none [] 1).result
          = Except.ok ⟨"success", DB.empty.nextId, "Resume processed successfully", true⟩
      ∧ (buildApplicationRecords none "user-1" req0 DB.empty
            (wrapSections []) true none [] 1).db.professional_experiences
          = DB.empty.professional_experiences
      ∧ (∃ r2 ∈ (buildApplicationRecords none "user-1" req0 DB.empty
            (wrapSections []) true none [] 1).db.resumes,
          r2.id = DB.empty.nextId ∧ r2.buckets = some u) :=
  ⟨rfl, missing_sections_default_empty "user-1" req0 DB.empty [] true none [] 1 rfl⟩

/-! ## C4: content-addressed dedup across byte-identical uploads -/

/-- A successful parser-service run makes exactly one provider call: its
event trace is the provider call followed by the success log row. -/
theorem parserService_ok_events (env : Env) (c : List Nat) (fn : String) (j : Json)
    (h : (parserServiceParseResume env c fn).1 = Except.ok j) :
    parserServiceParseResume env c fn
      = (Except.ok j, [Event.parserProviderCall, Event.logRequest "resume_parsing" "success"]) := by
  unfold parserServiceParseResume at h ⊢
  by_cases hext : supportedExtensions.contains (lowerString (pathSuffix fn)) = true
  · simp only [if_pos hext] at h ⊢
    cases he : env.extractText c (lowerString (pathSuffix fn)) with
    | error m =>
      rw [he] at h
      simp at h
    | ok text =>
      rw [he] at h
      simp only [] at h ⊢
      by_cases hst : stripString text = ""
      · rw [if_pos hst] at h
        simp at h
      · rw [if_neg hst] at h ⊢
        cases hp : processParsingResponse (env.parserCompletion text) with
        | ok parsed =>
          rw [hp] at h
          simp only [Except.ok.injEq] at h
          simp only []
          rw [h]
        | jsonError =>
          rw [hp] at h
          simp at h
        | malformed =>
          rw [hp] at h
          simp at h
        | typeError =>
          rw [hp] at h
          simp at h
  · simp only [if_neg hext] at h
    simp at h

/-- Shape of a route run whose upload hits the parse cache. -/
theorem parseResumeRoute_file_hit (env : Env) (failW : Option Nat) (uid co ro jd : String)
    (c : List Nat) (fn : String) (db : DB) (row : ParsedResumeRow) (rest : List ParsedResumeRow)
    (hfil : db.parsed_resumes.filter (fun r => r.file_hash == env.md5 c) = row :: rest) :
    parseResumeRoute env failW uid ⟨some (c, fn), none, co, ro, jd⟩ db
      = buildApplicationRecords failW uid ⟨some (c, fn), none, co, ro, jd⟩ db
          row.parsed_data (isReusedValue none (row :: rest)) (some row.id) [] 0 := by
  unfold parseResumeRoute
  simp only []
  rw [hfil]

/-- Shape of a route run whose upload misses the parse cache and parses
successfully: the result is stored and record building starts from the
extended cache. -/
theorem parseResumeRoute_file_miss (env : Env) (failW : Option Nat) (uid co ro jd : String)
    (c : List Nat) (fn : String) (db : DB) (j : Json) (evs : List Event)
    (hfil : db.parsed_resumes.filter (fun r => r.file_hash == env.md5 c) = [])
    (hsvc : parserServiceParseResume env c fn = (Except.ok j, evs))
    (hf0 : ¬ failW = some 0) :
    parseResumeRoute env failW uid ⟨some (c, fn), none, co, ro, jd⟩ db
      = buildApplicationRecords failW uid ⟨some (c, fn), none, co, ro, jd⟩
          (DB.mk (db.parsed_resumes ++ [ParsedResumeRow.mk db.nextId uid (env.md5 c) j fn])
            db.resumes db.professional_experiences db.experience_points (db.nextId + 1))
          j (isReusedValue none []) (some db.nextId) evs 1 := by
  unfold parseResumeRoute
  simp only []
  rw [hfil, hsvc]
  simp only [if_neg hf0]

/-- C4.  The content hash ignores the filename, so byte-identical uploads
hash alike.  Processing two byte-identical uploads sequentially (under the
assumption that the first obtains parsed data, by cache hit or by a
successful parse), both calls resolve to the same parsed_resumes row, and
the parsing provider is called at most once in total for that content. -/
theorem content_hash_dedup (env : Env) (db : DB) (c : List Nat) (fn1 fn2 : String)
    (uid1 uid2 co1 ro1 jd1 co2 ro2 jd2 : String)
    (hready : (∃ j, (parserServiceParseResume env c fn1).1 = Except.ok j)
      ∨ db.parsed_resumes.filter (fun r => r.file_hash == env.md5 c) ≠ []) :
    uploadHash env c fn1 = uploadHash env c fn2
    ∧ (parseResumeRoute env none uid1 ⟨some (c, fn1), none, co1, ro1, jd1⟩ db).usedParsed.isSome
        = true
    ∧ (parseResumeRoute env none uid2 ⟨some (c, fn2), none, co2, ro2, jd2⟩
          (parseResumeRoute env none uid1 ⟨some (c, fn1), none, co1, ro1, jd1⟩ db).db).usedParsed
        = (parseResumeRoute env none uid1 ⟨some (c, fn1), none, co1, ro1, jd1⟩ db).usedParsed
    ∧ (parseResumeRoute env none uid1
            ⟨some (c, fn1), none, co1, ro1, jd1⟩ db).events.count Event.parserProviderCall
        + (parseResumeRoute env none uid2 ⟨some (c, fn2), none, co2, ro2, jd2⟩
            (parseResumeRoute env none uid1
              ⟨some (c, fn1), none, co1, ro1, jd1⟩ db).db).events.count Event.parserProviderCall
        ≤ 1 := by
  refine ⟨rfl, ?_⟩
  cases hfil : db.parsed_resumes.filter (fun r => r.file_hash == env.md5 c) with
  | cons row rest =>
    have route1 := parseResumeRoute_file_hit env none uid1 co1 ro1 jd1 c fn1 db row rest hfil
    have hf1 := buildApplicationRecords_frame none uid1 ⟨some (c, fn1), none, co1, ro1, jd1⟩ db
      row.parsed_data (isReusedValue none (row :: rest)) (some row.id) [] 0
    have hfil2 : (parseResumeRoute env none uid1
          ⟨some (c, fn1), none, co1, ro1, jd1⟩ db).db.parsed_resumes.filter
          (fun r => r.file_hash == env.md5 c) = row :: rest := by
      rw [route1, hf1.1]
      exact hfil
    have route2 := parseResumeRoute_file_hit env none uid2 co2 ro2 jd2 c fn2
      (parseResumeRoute env none uid1 ⟨some (c, fn1), none, co1, ro1, jd1⟩ db).db row rest hfil2
    have hf2 := buildApplicationRecords_frame none uid2 ⟨some (c, fn2), none, co2, ro2, jd2⟩
      (parseResumeRoute env none uid1 ⟨some (c, fn1), none, co1, ro1, jd1⟩ db).db
      row.parsed_data (isReusedValue none (row :: rest)) (some row.id) [] 0
    refine ⟨?_, ?_, ?_⟩
    · rw [route1, hf1.2.2]
      rfl
    · rw [route2, hf2.2.2, route1, hf1.2.2]
    · rw [route2, hf2.2.1]
      conv in (parseResumeRoute env none uid1 ⟨some (c, fn1), none, co1, ro1, jd1⟩ db).events =>
        rw [route1, hf1.2.1]
      simp
  | nil =>
    have hj : ∃ j, (parserServiceParseResume env c fn1).1 = Except.ok j := by
      rcases hready with h | h
      · exact h
      · exact absurd hfil h
    obtain ⟨j, hjok⟩ := hj
    have hsvc := parserService_ok_events env c fn1 j hjok
    have route1 := parseResumeRoute_file_miss env none uid1 co1 ro1 jd1 c fn1 db j
      [Event.parserProviderCall, Event.logRequest "resume_parsing" "success"] hfil hsvc (by simp)
    have hf1 := buildApplicationRecords_frame none uid1 ⟨some (c, fn1), none, co1, ro1, jd1⟩
      (DB.mk (db.parsed_resumes ++ [ParsedResumeRow.mk db.nextId uid1 (env.md5 c) j fn1])
        db.resumes db.professional_experiences db.experience_points (db.nextId + 1))
      j (isReusedValue none [])
      (some db.nextId) [Event.parserProviderCall, Event.logRequest "resume_parsing" "success"] 1
    have hfil2 : (parseResumeRoute env none uid1
          ⟨some (c, fn1), none, co1, ro1, jd1⟩ db).db.parsed_resumes.filter
          (fun r => r.file_hash == env.md5 c)
        = [ParsedResumeRow.mk db.nextId uid1 (env.md5 c) j fn1] := by
      rw [route1, hf1.1]
      simp only []
      rw [List.filter_append, hfil]
      simp
    have route2 := parseResumeRoute_file_hit env none uid2 co2 ro2 jd2 c fn2
      (parseResumeRoute env none uid1 ⟨some (c, fn1), none, co1, ro1, jd1⟩ db).db
      (ParsedResumeRow.mk db.nextId uid1 (env.md5 c) j fn1) [] hfil2
    have hf2 := buildApplicationRecords_frame none uid2 ⟨some (c, fn2), none, co2, ro2, jd2⟩
      (parseResumeRoute env none uid1 ⟨some (c, fn1), none, co1, ro1, jd1⟩ db).db
      (ParsedResumeRow.mk db.nextId uid1 (env.md5 c) j fn1).parsed_data
      (isReusedValue none [ParsedResumeRow.mk db.nextId uid1 (env.md5 c) j fn1])
      (some (ParsedResumeRow.mk db.nextId uid1 (env.md5 c) j fn1).id) [] 0
    refine ⟨?_, ?_, ?_⟩
    · rw [route1, hf1.2.2]
      rfl
    · rw [route2, hf2.2.2, route1, hf1.2.2]
    · rw [route2, hf2.2.1]
      conv in (parseResumeRoute env none uid1 ⟨some (c, fn1), none, co1, ro1, jd1⟩ db).events =>
        rw [route1, hf1.2.1]
      simp [List.count_cons, List.count_nil]

/-- C4 witness: the concrete byte-identical pair of uploads of
parse_resume_first_upload scenario, with differing filenames and
metadata. -/
theorem content_hash_dedup_witness :
    (∃ j, (parserServiceParseResume envP [1, 2, 3] "resume.pdf").1 = Except.ok j)
    ∧ ((parseResumeRoute envP none "user-1" req0 DB.empty).usedParsed.isSome = true
      ∧ (parseResumeRoute envP none "user-2" req1
            (parseResumeRoute envP none "user-1" req0 DB.empty).db).usedParsed
          = (parseResumeRoute envP none "user-1" req0 DB.empty).usedParsed
      ∧ (parseResumeRoute envP none "user-1" req0 DB.empty).events.count
            Event.parserProviderCall
          + (parseResumeRoute envP none "user-2" req1
              (parseResumeRoute envP none "user-1" req0 DB.empty).db).events.count
            Event.parserProviderCall ≤ 1) :=
  ⟨⟨Json.obj [("content", Json.obj [("sections", Json.arr [])])], rfl⟩,
   ((content_hash_dedup envP DB.empty [1, 2, 3] "resume.pdf" "other.txt"
      "user-1" "user-2" "Acme" "Engineer" "Build things" "Globex" "Manager" "Other things"
      (Or.inl ⟨Json.obj [("content", Json.obj [("sections", Json.arr [])])], rfl⟩)).2 : _)⟩

/-- C8 witness: the concrete first upload against the empty database. -/
theorem parse_resume_header_fields_witness :
    (∀ r ∈ DB.empty.resumes, r.id < DB.empty.nextId)
    ∧ (∀ r2 ∈ (parseResumeRoute envP none "user-1" req0 DB.empty).db.resumes,
        r2 ∈ DB.empty.resumes
        ∨ (r2.user_id = "user-1" ∧ r2.job_description = req0.jobDescription
           ∧ r2.company_applied = req0.companyApplied ∧ r2.role_applied = req0.roleApplied
           ∧ r2.status = "Writing CV" ∧ r2.parsing_status = "completed"
           ∧ r2.analysis_status = "pending")) :=
  ⟨fun r hr => absurd hr (by simp [DB.empty]),
   parse_resume_header_fields envP none "user-1" req0 DB.empty
     (fun r hr => absurd hr (by simp [DB.empty]))⟩

/-! ## C9: partial failure of the experience loop persists the prefix -/

/-- A by-type lookup does not depend on a non-matching section in the
middle of the list. -/
theorem pyNext_mid_eq (pres : List Json) (mid mid2 : List (String × Json)) (rest : List Json)
    (t : String) (val : List (String × Json) → Json) (d : Json)
    (h1 : typeMatches mid t = false) (h2 : typeMatches mid2 t = false) :
    pyNext (pres ++ Json.obj mid :: rest) t val d
      = pyNext (pres ++ Json.obj mid2 :: rest) t val d := by
  induction pres with
  | nil => simp [pyNext, h1, h2]
  | cons p ps ih =>
    cases p with
    | obj kvs =>
      simp only [List.cons_append, pyNext]
      by_cases hm : typeMatches kvs t = true
      · rw [if_pos hm, if_pos hm]
      · rw [if_neg hm, if_neg hm]
        exact ih
    | null => rfl
    | bool b => rfl
    | num n => rfl
    | str s => rfl
    | arr xs => rfl

/-- The bucket decomposition ignores the entries held by a
professional_experience section. -/
theorem buildUpdateData_mid (pres rest : List Json) (E1 E2 : List (List (String × Json))) :
    buildUpdateData (pres ++ Json.obj (profSection E1) :: rest)
      = buildUpdateData (pres ++ Json.obj (profSection E2) :: rest) := by
  unfold buildUpdateData
  rw [pyNext_mid_eq pres (profSection E1) (profSection E2) rest "contact_information"
        sectionContent (Json.obj []) rfl rfl,
      pyNext_mid_eq pres (profSection E1) (profSection E2) rest "education"
        sectionEntries (Json.arr []) rfl rfl,
      pyNext_mid_eq pres (profSection E1) (profSection E2) rest "skills"
        sectionEntries (Json.arr []) rfl rfl,
      pyNext_mid_eq pres (profSection E1) (profSection E2) rest "certificates"
        sectionEntries (Json.arr []) rfl rfl,
      pyNext_mid_eq pres (profSection E1) (profSection E2) rest "miscellaneous"
        sectionEntries (Json.arr []) rfl rfl,
      pyNext_mid_eq pres (profSection E1) (profSection E2) rest "executive summary"
        sectionSummary (Json.str "") rfl rfl,
      pyNext_mid_eq pres (profSection E1) (profSection E2) rest "personal_projects"
        sectionEntries (Json.arr []) rfl rfl]

/-- The bucket decomposition over dict sections never fails. -/
theorem buildUpdateData_obj_total (secs : List (List (String × Json))) :
    ∃ u, buildUpdateData (secs.map Json.obj) = Except.ok u := by
  obtain ⟨ci, hci⟩ := pyNext_obj_total secs "contact_information" sectionContent (Json.obj [])
  obtain ⟨ed, hed⟩ := pyNext_obj_total secs "education" sectionEntries (Json.arr [])
  obtain ⟨sk, hsk⟩ := pyNext_obj_total secs "skills" sectionEntries (Json.arr [])
  obtain ⟨ce, hce⟩ := pyNext_obj_total secs "certificates" sectionEntries (Json.arr [])
  obtain ⟨mi, hmi⟩ := pyNext_obj_total secs "miscellaneous" sectionEntries (Json.arr [])
  obtain ⟨ex, hex⟩ := pyNext_obj_total secs "executive summary" sectionSummary (Json.str "")
  obtain ⟨pp, hpp⟩ := pyNext_obj_total secs "personal_projects" sectionEntries (Json.arr [])
  refine ⟨⟨ci, ed, sk, ce, mi, ex, pp⟩, ?_⟩
  rw [buildUpdateData, hci, hed, hsk, hce, hmi, hex, hpp]
  rfl

/-- A by-type lookup skips a prefix of dict sections that lack the
type. -/
theorem pyNext_pre_skip (pres : List (List (String × Json))) (x : Json) (rest : List Json)
    (t : String) (val : List (String × Json) → Json) (d : Json)
    (hpre : ∀ kvs ∈ pres, typeMatches kvs t = false) :
    pyNext (pres.map Json.obj ++ x :: rest) t val d = pyNext (x :: rest) t val d := by
  induction pres with
  | nil => rfl
  | cons p ps ih =>
    simp only [List.map, List.cons_append, pyNext]
    rw [if_neg (by simp [hpre p (List.mem_cons_self _ _)])]
    exact ih (fun kvs hk => hpre kvs (List.mem_cons_of_mem _ hk))

/-- The professional_experience lookup on a section list whose prefix has
other types produces the entries of the professional experience
section. -/
theorem pyNext_prof_section (pres : List (List (String × Json)))
    (E : List (List (String × Json))) (rest : List Json)
    (hpre : ∀ kvs ∈ pres, typeMatches kvs "professional_experience" = false) :
    pyNext (pres.map Json.obj ++ Json.obj (profSection E) :: rest) "professional_experience"
        sectionEntries (Json.arr [])
      = Except.ok (Json.arr (E.map Json.obj)) := by
  rw [pyNext_pre_skip pres _ rest _ _ _ hpre]
  rfl

/-- Record building, once the header insert and the bucket update have
gone through and the sections decompose, reduces to the experience loop
run from write w + 2 on the database holding the bucketed header. -/
theorem buildApplicationRecords_shape (failW : Option Nat) (uid : String) (req : ParseReq)
    (db : DB) (pd : Json) (reused : Bool) (up : Option Nat) (evs : List Event) (w : Nat)
    (items : List Json) (u : UpdateData) (pe : Json) (pexp : List Json)
    (hw0 : ¬ failW = some w) (hw1 : ¬ failW = some (w + 1))
    (hs : getSections pd = Except.ok items)
    (hu : buildUpdateData items = Except.ok u)
    (hpe : pyNext items "professional_experience" sectionEntries (Json.arr []) = Except.ok pe)
    (hit : pyIter pe = Except.ok pexp) :
    buildApplicationRecords failW uid req db pd reused up evs w
      = match processExperiences failW db.nextId pexp (dbAfterHeader uid req u db) (w + 2) with
        | Except.error (m, db3, _) => ⟨Except.error (500, m), db3, evs, up⟩
        | Except.ok (db3, _) =>
            ⟨Except.ok ⟨"success", db.nextId, "Resume processed successfully", reused⟩,
              db3, evs, up⟩ := by
  simp only [buildApplicationRecords, dbAfterHeader, if_neg hw0, hs, hu, if_neg hw1, hpe, hit]

/-- C9.  For a structured parse whose professional experience section
holds the entries exps, with a well-formed prefix (every entry has an
iterable points value when truthy) and any number k below the length:
the run that stops after the first k entries succeeds and leaves some
database dbk; injecting a write failure at the row insert of entry k + 1
aborts the whole route with an HTTP 500 whose detail names the failed
insert, and the database at the failure is exactly dbk - the Application
header with its buckets, the k previously inserted experience rows and
their experience points all remain persisted, nothing is rolled back.
When entry k + 1 carries a truthy points value, injecting the failure one
write later (at its bulk points insert) also aborts with an HTTP 500,
additionally persisting the row of entry k + 1 but none of its points. -/
theorem partial_failure_persistence (uid : String) (req : ParseReq) (db : DB)
    (pre post exps : List (List (String × Json))) (k : Nat)
    (reused : Bool) (up : Option Nat) (evs : List Event) (w : Nat)
    (hk : k < exps.length)
    (hpre : ∀ kvs ∈ pre, typeMatches kvs "professional_experience" = false)
    (hok : ∀ e ∈ exps, pointsOk e = true) :
    ∃ dbk,
      buildApplicationRecords none uid req db
          (wrapSections (pre ++ profSection (exps.take k) :: post)) reused up evs w
        = ⟨Except.ok ⟨"success", db.nextId, "Resume processed successfully", reused⟩,
            dbk, evs, up⟩
      ∧ buildApplicationRecords (some (w + 2 + loopWrites (exps.take k))) uid req db
          (wrapSections (pre ++ profSection exps :: post)) reused up evs w
        = ⟨Except.error (500, "insert professional_experiences failed"), dbk, evs, up⟩
      ∧ (∃ rows, dbk.professional_experiences = db.professional_experiences ++ rows
          ∧ rows.length = k
          ∧ rows.all (fun r => r.resume_id == db.nextId) = true)
      ∧ (∃ pts, dbk.experience_points = db.experience_points ++ pts)
      ∧ (∃ r2 ∈ dbk.resumes, r2.id = db.nextId ∧ r2.status = "Writing CV"
          ∧ r2.parsing_status = "completed" ∧ ∃ u2, r2.buckets = some u2)
      ∧ (Json.truthy ((Json.alookup (exps.getD k []) "points").getD Json.null) = true →
          ∃ msg db3,
            buildApplicationRecords (some (w + 2 + loopWrites (exps.take k) + 1)) uid req db
                (wrapSections (pre ++ profSection exps :: post)) reused up evs w
              = ⟨Except.error (500, msg), db3, evs, up⟩
            ∧ db3.resumes = dbk.resumes
            ∧ db3.parsed_resumes = dbk.parsed_resumes
            ∧ db3.professional_experiences
                = dbk.professional_experiences ++ [expRowFrom db.nextId (exps.getD k []) dbk]
            ∧ db3.experience_points = dbk.experience_points) := by
  have hok_take : ∀ e ∈ exps.take k, pointsOk e = true :=
    fun e he => hok e (List.mem_of_mem_take he)
  have hmapk : (pre ++ profSection (exps.take k) :: post).map Json.obj
      = pre.map Json.obj ++ Json.obj (profSection (exps.take k)) :: post.map Json.obj := by
    simp
  have hmapf : (pre ++ profSection exps :: post).map Json.obj
      = pre.map Json.obj ++ Json.obj (profSection exps) :: post.map Json.obj := by
    simp
  obtain ⟨u, hu⟩ := buildUpdateData_obj_total (pre ++ profSection (exps.take k) :: post)
  have huf : buildUpdateData ((pre ++ profSection exps :: post).map Json.obj)
      = Except.ok u := by
    rw [hmapf, buildUpdateData_mid (pre.map Json.obj) (post.map Json.obj) exps (exps.take k),
      ← hmapk, hu]
  have hpek : pyNext ((pre ++ profSection (exps.take k) :: post).map Json.obj)
      "professional_experience" sectionEntries (Json.arr [])
      = Except.ok (Json.arr ((exps.take k).map Json.obj)) := by
    rw [hmapk]
    exact pyNext_prof_section pre (exps.take k) (post.map Json.obj) hpre
  have hpef : pyNext ((pre ++ profSection exps :: post).map Json.obj)
      "professional_experience" sectionEntries (Json.arr [])
      = Except.ok (Json.arr (exps.map Json.obj)) := by
    rw [hmapf]
    exact pyNext_prof_section pre exps (post.map Json.obj) hpre
  have hsplit : exps = exps.take k ++ exps.getD k [] :: exps.drop (k + 1) := by
    conv_lhs => rw [← List.take_append_drop k exps, List.drop_eq_getElem_cons hk]
    rw [List.getD_eq_getElem exps [] hk]
  have hdecomp : exps.map Json.obj
      = (exps.take k).map Json.obj ++ Json.obj (exps.getD k [])
          :: (exps.drop (k + 1)).map Json.obj := by
    conv_lhs => rw [hsplit]
    simp only [List.map_append, List.map_cons]
  obtain ⟨dbk, heqk, herr⟩ := processExperiences_fail_entry db.nextId (exps.take k)
    (exps.getD k []) ((exps.drop (k + 1)).map Json.obj)
    (dbAfterHeader uid req u db) (w + 2) hok_take
  obtain ⟨dbk2, heqk2, hres, hpar, ⟨rows, hrows, hlen, hall⟩, ⟨pts, hpts⟩⟩ :=
    processExperiences_none_spec db.nextId (exps.take k) (dbAfterHeader uid req u db)
      (w + 2) hok_take
  have hdd : dbk = dbk2 := by
    have h := heqk.symm.trans heqk2
    simp only [Except.ok.injEq, Prod.mk.injEq] at h
    exact h.1
  subst hdd
  have hA := buildApplicationRecords_shape none uid req db
    (wrapSections (pre ++ profSection (exps.take k) :: post)) reused up evs w
    ((pre ++ profSection (exps.take k) :: post).map Json.obj) u
    (Json.arr ((exps.take k).map Json.obj)) ((exps.take k).map Json.obj)
    (by simp) (by simp) (getSections_wrap _) hu hpek rfl
  rw [heqk] at hA
  simp only [] at hA
  have hB := buildApplicationRecords_shape (some (w + 2 + loopWrites (exps.take k)))
    uid req db (wrapSections (pre ++ profSection exps :: post)) reused up evs w
    ((pre ++ profSection exps :: post).map Json.obj) u
    (Json.arr (exps.map Json.obj)) (exps.map Json.obj)
    (by simp only [Option.some.injEq]; omega) (by simp only [Option.some.injEq]; omega)
    (getSections_wrap _) huf hpef rfl
  rw [hdecomp, herr] at hB
  simp only [] at hB
  refine ⟨dbk, hA, hB, ⟨rows, hrows, ?_, hall⟩, ⟨pts, hpts⟩, ?_, ?_⟩
  · rw [hlen, List.length_take]
    omega
  · rw [hres]
    simp only [dbAfterHeader]
    have hmem := List.mem_map_of_mem
      (fun r : ResumeRow => if r.id = db.nextId then { r with buckets := some u } else r)
      (List.mem_append_right db.resumes (List.mem_singleton_self
        (ResumeRow.mk db.nextId uid req.jobDescription req.companyApplied req.roleApplied
          "Writing CV" "completed" "pending" none none)))
    refine ⟨_, hmem, ?_, ?_, ?_, ⟨u, ?_⟩⟩
    · simp
    · simp
    · simp
    · simp
  · intro htr
    obtain ⟨dbp, heqp, msg, db3, wf, herrp, hres3, hpar3, hprof3, hpts3⟩ :=
      processExperiences_fail_points db.nextId (exps.take k) (exps.getD k [])
        ((exps.drop (k + 1)).map Json.obj) (dbAfterHeader uid req u db) (w + 2) hok_take htr
    have hdp : dbk = dbp := by
      have h := heqk.symm.trans heqp
      simp only [Except.ok.injEq, Prod.mk.injEq] at h
      exact h.1
    subst hdp
    have hC := buildApplicationRecords_shape (some (w + 2 + loopWrites (exps.take k) + 1))
      uid req db (wrapSections (pre ++ profSection exps :: post)) reused up evs w
      ((pre ++ profSection exps :: post).map Json.obj) u
      (Json.arr (exps.map Json.obj)) (exps.map Json.obj)
      (by simp only [Option.some.injEq]; omega) (by simp only [Option.some.injEq]; omega)
      (getSections_wrap _) huf hpef rfl
    rw [hdecomp, herrp] at hC
    simp only [] at hC
    exact ⟨msg, db3, hC, hres3, hpar3, hprof3, hpts3⟩

/-- C9 witness: a two-entry experience list over the empty database,
failing at the second entry; the first entry stays persisted. -/
theorem partial_failure_persistence_witness :
    (1 < exps9.length) ∧ (∀ e ∈ exps9, pointsOk e = true)
    ∧ ∃ dbk,
      buildApplicationRecords none "user-1" req0 DB.empty
          (wrapSections ([] ++ profSection (exps9.take 1) :: [])) true none [] 1
        = ⟨Except.ok ⟨"success", DB.empty.nextId, "Resume processed successfully", true⟩,
            dbk, [], none⟩
      ∧ buildApplicationRecords (some (1 + 2 + loopWrites (exps9.take 1))) "user-1" req0
          DB.empty (wrapSections ([] ++ profSection exps9 :: [])) true none [] 1
        = ⟨Except.error (500, "insert professional_experiences failed"), dbk, [], none⟩
      ∧ (∃ rows, dbk.professional_experiences = DB.empty.professional_experiences ++ rows
          ∧ rows.length = 1
          ∧ rows.all (fun r => r.resume_id == DB.empty.nextId) = true)
      ∧ (∃ pts, dbk.experience_points = DB.empty.experience_points ++ pts)
      ∧ (∃ r2 ∈ dbk.resumes, r2.id = DB.empty.nextId ∧ r2.status = "Writing CV"
          ∧ r2.parsing_status = "completed" ∧ ∃ u2, r2.buckets = some u2)
      ∧ (Json.truthy ((Json.alookup (exps9.getD 1 []) "points").getD Json.null) = true →
          ∃ msg db3,
            buildApplicationRecords (some (1 + 2 + loopWrites (exps9.take 1) + 1)) "user-1" req0
                DB.empty (wrapSections ([] ++ profSection exps9 :: [])) true none [] 1
              = ⟨Except.error (500, msg), db3, [], none⟩
            ∧ db3.resumes = dbk.resumes
            ∧ db3.parsed_resumes = dbk.parsed_resumes
            ∧ db3.professional_experiences
                = dbk.professional_experiences
                  ++ [expRowFrom DB.empty.nextId (exps9.getD 1 []) dbk]
            ∧ db3.experience_points = dbk.experience_points) :=
  ⟨by decide, by decide,
   partial_failure_persistence "user-1" req0 DB.empty [] [] exps9 1 true none [] 1
     (by decide) (by simp) (by decide)⟩

end Workwise
